import Mathlib

/-!
A verification development for the `ahds` Amira (R) file scanner
(`src/ahds/grammar.py`): the format detector, the chunked header boundary
scanner (`get_header`) and the HyperSurface stream walker
(`parse_hypersurface_data`), together with the regular-expression driven
delimiter matching they rely on.

Byte strings are modelled as `List Nat` (each entry a byte value), the byte
source (Python file handle) as a list of bytes plus a read position, and the
regular expressions of the source as abstract syntax trees interpreted by a
small backtracking engine with CPython `re` semantics (leftmost match,
alternation priority, greedy repetition with backtracking).  All repetition
operators in the source's patterns apply to single-character classes, which the
engine's AST mirrors, keeping every definition executable and total.
-/

namespace Ahds

-- Decidable equality for `Except` results (not provided by core).
deriving instance DecidableEq for Except

/-! ## Byte-string helpers -/

/-- Bytes of an ASCII string (all string constants in the source are ASCII). -/
def bs (s : String) : List Nat := s.data.map Char.toNat

/-- Python slice `l[a:b]` for `0 ≤ a`, `0 ≤ b` (clamping semantics). -/
def sub (l : List Nat) (a b : Nat) : List Nat := (l.take b).drop a

/-- Python byte-string `\s` class: space, tab, newline, carriage return,
vertical tab, form feed. -/
def isWS (b : Nat) : Bool := b == 32 || b == 9 || b == 10 || b == 13 || b == 11 || b == 12

/-- Python byte-string `\d` class. -/
def isDigit (b : Nat) : Bool := 48 ≤ b && b ≤ 57

/-- Python byte-string `\w` class: `[a-zA-Z0-9_]`. -/
def isWordB (b : Nat) : Bool :=
  isDigit b || (65 ≤ b && b ≤ 90) || (97 ≤ b && b ≤ 122) || b == 95

/-! ## A backtracking regex engine with CPython `re` semantics

Only the constructs used by the source's patterns are provided.  Repetition
(`star`, `plus`) is restricted to single-character classes, exactly as in every
pattern of `grammar.py`, so greedy matching with backtracking reduces to
scanning the maximal run and trying continuation positions from the right.
-/

/-- Capture slots: `some (a, b)` means the group matched `s[a:b]`. -/
abbrev Caps := List (Option (Nat × Nat))

/-- Regex AST.  `bol` is `^` without `re.M` (start of string only); `eos` is
`$` without `re.M` (end of string, or just before a terminating newline);
`nlOrEnd` is the lookahead `(?=\n|$)`. -/
inductive RE where
  | eps
  | chr (p : Nat → Bool)
  | cat (a b : RE)
  | alt (a b : RE)
  | star (p : Nat → Bool)
  | plus (p : Nat → Bool)
  | opt (r : RE)
  | grp (g : Nat) (r : RE)
  | bol
  | eos
  | nlOrEnd

/-- Literal byte-string pattern. -/
def lit (w : List Nat) : RE := w.foldr (fun ch r => .cat (.chr (fun b => b == ch)) r) .eps

/-- CPS matcher: `reMatch s r i caps k` attempts `r` at position `i` in `s`,
calling continuation `k` at each candidate end position in priority order and
returning the first success.  This is exactly CPython's backtracking order:
alternatives left to right, repetition longest first. -/
def reMatch (s : List Nat) :
    RE → Nat → Caps → (Nat → Caps → Option (Nat × Caps)) → Option (Nat × Caps)
  | .eps, i, c, k => k i c
  | .chr p, i, c, k =>
      match s.get? i with
      | some b => if p b then k (i + 1) c else none
      | none => none
  | .cat a b, i, c, k => reMatch s a i c (fun j c2 => reMatch s b j c2 k)
  | .alt a b, i, c, k =>
      match reMatch s a i c k with
      | some r => some r
      | none => reMatch s b i c k
  | .star p, i, c, k =>
      let j := i + ((s.drop i).takeWhile p).length
      (List.range (j - i + 1)).findSome? (fun d => k (j - d) c)
  | .plus p, i, c, k =>
      let j := i + ((s.drop i).takeWhile p).length
      if j = i then none else (List.range (j - i)).findSome? (fun d => k (j - d) c)
  | .opt r, i, c, k =>
      match reMatch s r i c k with
      | some res => some res
      | none => k i c
  | .grp g r, i, c, k => reMatch s r i c (fun j c2 => k j (c2.set g (some (i, j))))
  | .bol, i, c, k => if i = 0 then k i c else none
  | .eos, i, c, k =>
      if i = s.length then k i c
      else if i + 1 = s.length && s.get? i == some 10 then k i c
      else none
  | .nlOrEnd, i, c, k =>
      if i = s.length || s.get? i == some 10 then k i c else none

/-- `Pattern.match`-like anchored attempt at position `i`: returns the match
end and the captures, or `none`. -/
def matchAt (s : List Nat) (r : RE) (i : Nat) : Option (Nat × Caps) :=
  reMatch s r i (List.replicate 4 none) (fun j c => some (j, c))

/-- `Pattern.search(s, start)`: leftmost match at a position `≥ start`
(CPython clamps `start` into `[0, len]`).  Returns (start, end, captures). -/
def reSearch (s : List Nat) (r : RE) (start : Nat) : Option (Nat × Nat × Caps) :=
  (List.range (s.length + 1 - start)).findSome?
    (fun d => (matchAt s r (start + d)).map (fun e => (start + d, e.1, e.2)))

/-! ## The delimiter patterns and static tables of `grammar.py` -/

/-- The keys of `_hyper_surface_file`, in dictionary insertion order (the order
in which `_hyper_surface_entities` joins them into the alternation). -/
def hyper_surface_keywords : List (List Nat) :=
  [bs "Vertices", bs "NBranchingPoints", bs "NVerticesOnCurves", bs "BoundaryCurves",
   bs "Patches", bs "InnerRegion", bs "OuterRegion", bs "Triangles",
   bs "BranchingPoints", bs "Surfaces", bs "Region"]

/-- `_rescan_overlap = ((max(len(_key) for _key in _hyper_surface_file) + 15) // 16) * 16`. -/
def rescan_overlap : Nat :=
  ((hyper_surface_keywords.foldl (fun m k => max m k.length) 0) + 15) / 16 * 16

/-- Alternation of the HyperSurface keywords, in table order. -/
def kwAlt : RE :=
  (hyper_surface_keywords.map lit).foldr (fun a r => .alt a r) (.chr (fun _ => false))

/-- `_file_format_match = ^\s*#\s*(?P<format>AmiraMesh|HyperSurface)(?:\s+|$)`.
The `format` capture is group slot 0. -/
def file_format_match : RE :=
  .cat .bol (.cat (.star isWS) (.cat (.chr (fun b => b == 35))
    (.cat (.star isWS) (.cat (.grp 0 (.alt (lit (bs "AmiraMesh")) (lit (bs "HyperSurface"))))
      (.alt (.plus isWS) .eos)))))

/-- `_stream_delimiters[0] = (?:^|\n)\s*@(?P<stream>\d+)\s*\n` (stream capture
in slot 0). -/
def delim0 : RE :=
  .cat (.alt .bol (.chr (fun b => b == 10)))
    (.cat (.star isWS) (.cat (.chr (fun b => b == 64))
      (.cat (.grp 0 (.plus isDigit)) (.cat (.star isWS) (.chr (fun b => b == 10))))))

/-- `(?:\w|[^\n{])` as a character class (the union of the two single-byte
alternatives). -/
def isStringTok (b : Nat) : Bool := isWordB b || (b != 10 && b != 123)

/-- `_stream_delimiters[1]`:
`(?:^|\n)\s*(?P<stream>KWS)(?:\s+(?:(?P<count>\d+)|(?P<string>(?:\w|[^\n{])+)))?(?P<group>\s*(?:\n\s*)?\{\s*\n)?\s*\n`
with capture slots stream = 0, count = 1, string = 2, group = 3. -/
def delim1 : RE :=
  .cat (.alt .bol (.chr (fun b => b == 10)))
    (.cat (.star isWS)
      (.cat (.grp 0 kwAlt)
        (.cat (.opt (.cat (.plus isWS)
            (.alt (.grp 1 (.plus isDigit)) (.grp 2 (.plus isStringTok)))))
          (.cat (.opt (.grp 3 (.cat (.star isWS)
              (.cat (.opt (.cat (.chr (fun b => b == 10)) (.star isWS)))
                (.cat (.chr (fun b => b == 123))
                  (.cat (.star isWS) (.chr (fun b => b == 10))))))))
            (.cat (.star isWS) (.chr (fun b => b == 10)))))))

/-- The comment pattern `#[^\n]*(?=\n|$)` (`_stream_delimiters[2]` before it is
combined at module load). -/
def commentRE : RE :=
  .cat (.chr (fun b => b == 35)) (.cat (.star (fun b => b != 10)) .nlOrEnd)

/-- `_stream_delimiters[3]` as recompiled at module load (line 191):
`(?P<stop>\s*\}(?:(?:\s|\n)*\{)?\n|(?:KWS))|#[^\n]*(?=\n|$)` with `re.S` only —
the original `re.I` flag is lost by the recompilation, so keyword matching here
is case sensitive.  `stop` capture in slot 0. -/
def delim3 : RE :=
  .alt
    (.grp 0 (.alt
      (.cat (.star isWS) (.cat (.chr (fun b => b == 125))
        (.cat (.opt (.cat (.star isWS) (.chr (fun b => b == 123))))
          (.chr (fun b => b == 10)))))
      kwAlt))
    commentRE

/-- `_stream_delimiters[4] = }(?:\s*{)?`. -/
def delim4 : RE :=
  .cat (.chr (fun b => b == 125)) (.opt (.cat (.star isWS) (.chr (fun b => b == 123))))

/-! ## The byte source -/

/-- A Python binary file handle: the file's bytes plus the read position.
`read` returns at most `n` bytes and advances; `tell` is `pos`. -/
structure FH where
  contents : List Nat
  pos : Nat
deriving DecidableEq

def FH.read (fh : FH) (n : Nat) : List Nat × FH :=
  let t := (fh.contents.drop fh.pos).take n
  (t, ⟨fh.contents, fh.pos + t.length⟩)

def FH.tell (fh : FH) : Nat := fh.pos

/-- Modelled from the spec: `_decode_string` lives in the absent `.core`
module; the spec fixes it as plain text decoding of a (nominally ASCII) byte
string, which we model as the character-per-byte string. -/
def decode_string (l : List Nat) : String := String.mk (l.map Char.ofNat)

/-! ## Errors

`AHDSStreamError` messages are modelled structurally: one constructor per
`format` string in the source, carrying the formatted-in arguments.  `render`
below recovers the exact Python message text. -/

/-- The messages `parse_hypersurface_data` and `get_header` put into
`AHDSStreamError`. -/
inductive AhdsMsg where
  /-- `"'parsed_data' does not represent valid HyperSurface data_definitions"` -/
  | invalidHyperSurface
  /-- `"'{}' unknown HyperSurface file stream: blame ahds team"` -/
  | unknownStream
  /-- `"{} items of '{}' group missing"` -/
  | itemsMissing (n : Int) (g : String)
  /-- `"HyperSurface sub groups not suported"` -/
  | subGroups
  /-- `"Itemcount not readable on stream '{}'"` -/
  | itemcountUnreadable (s : String)
  /-- `"{} group is mandatory"` -/
  | mandatory (s : String)
  /-- `"'{}' ({}): '{}' stream has element count but does not provide number of items"` -/
  | countNoItems (stream : String)
  /-- `"'{}' stream not expected on '{}' group"` -/
  | notExpected (stream arr : String)
deriving DecidableEq

/-- The exact Python message text of each `AHDSStreamError`. -/
def AhdsMsg.render : AhdsMsg → String
  | .invalidHyperSurface =>
      "'parsed_data' does not represent valid HyperSurface data_definitions"
  | .unknownStream => "'None' unknown HyperSurface file stream: blame ahds team"
  | .itemsMissing n g => toString n ++ " items of '" ++ g ++ "' group missing"
  | .subGroups => "HyperSurface sub groups not suported"
  | .itemcountUnreadable s => "Itemcount not readable on stream '" ++ s ++ "'"
  | .mandatory s => s ++ " group is mandatory"
  | .countNoItems s =>
      "'" ++ s ++ "' stream has element count but does not provide number of items"
  | .notExpected s a => "'" ++ s ++ "' stream not expected on '" ++ a ++ "' group"

/-- The exceptions the embedded code can raise.  `ahds` is the dedicated
`AHDSStreamError`; the others are ordinary Python exceptions that specific
code paths raise: `valueError` is `get_header`'s
`ValueError("Unable to parse undefined file")`, `nameError` is the
`UnboundLocalError` from reading the local `array_id` before any group
assigned it, `typeError` is `_decode_string(None)` on an absent capture,
`keyError` is a missing dict key, `assertError` a failed `assert`. -/
inductive PyErr where
  | ahds (m : AhdsMsg)
  | valueError
  | nameError
  | typeError
  | keyError
  | assertError
deriving DecidableEq

/-! ## `detect_format` and `get_header` -/

/-- `detect_format(fhnd, format_bytes=50)` (grammar.py lines 529-548): read
`max(format_bytes, 50)` bytes, classify them with `_file_format_match`, and
return the format name together with the bytes read. -/
def detect_format (fh : FH) (format_bytes : Nat) : Except PyErr (String × List Nat × FH) :=
  if format_bytes = 0 then .error .assertError else
  let r := fh.read (if format_bytes > 50 then format_bytes else 50)
  match matchAt r.1 file_format_match 0 with
  | some (_, caps) =>
      match caps.get? 0 with
      | some (some (a, b)) => .ok (decode_string (sub r.1 a b), r.1, r.2)
      | _ => .ok ("Undefined", r.1, r.2)
  | none => .ok ("Undefined", r.1, r.2)

/-- The `while m is None` loop of `get_header` (lines 576-582): on entry `m?`
holds the result of the previous search of `data`; each round reads another
`header_bytes` chunk and rescans from `len(data) - _rescan_overlap` (clamped
at 0, as CPython clamps a negative search start).  Returns the final buffer,
the match start (`none` when the source ran dry), and the file handle.
Fuel-indexed; `none` means the fuel ran out. -/
def gh_loop (delim : RE) (header_bytes : Nat) :
    Nat → FH → List Nat → Option Nat → Option (FH × List Nat × Option Nat)
  | 0, _, _, _ => none
  | fuel + 1, fh, data, m? =>
      match m? with
      | some s => some (fh, data, some s)
      | none =>
          let chunklen := data.length - rescan_overlap
          let r := fh.read header_bytes
          if r.1.isEmpty then some (r.2, data, none)
          else
            gh_loop delim header_bytes fuel r.2 (data ++ r.1)
              ((reSearch (data ++ r.1) delim chunklen).map (·.1))

/-- `get_header(fhnd, header_bytes=16384)` (lines 550-585): detect the format
reading `max(header_bytes, _rescan_overlap)` (hence at least 50) bytes, pick
the stream delimiter for the format, scan in `header_bytes`-sized chunks with
the rescan overlap, and split the buffer at the match start.  Returns
`(file_format, header bytes, remainder bytes, handle)`; the source decodes the
header bytes with `_decode_string` before returning them.  On source
exhaustion without a match the whole buffer is the header and the remainder is
empty. -/
def get_header (fh : FH) (header_bytes : Nat) (fuel : Nat) :
    Option (Except PyErr (String × List Nat × List Nat × FH)) :=
  if header_bytes = 0 then some (.error .assertError) else
  match detect_format fh (if header_bytes ≥ rescan_overlap then header_bytes else rescan_overlap) with
  | .error e => some (.error e)
  | .ok (fmt, data, fh1) =>
      if fmt = "AmiraMesh" ∨ fmt = "HyperSurface" then
        let delim := if fmt = "AmiraMesh" then delim0 else delim1
        match gh_loop delim header_bytes fuel fh1 data ((reSearch data delim 0).map (·.1)) with
        | none => none
        | some (fh2, data2, some s) => some (.ok (fmt, data2.take s, data2.drop s, fh2))
        | some (fh2, data2, none) => some (.ok (fmt, data2, [], fh2))
      else some (.error .valueError)

/-! ## The HyperSurface descriptor table -/

/-- The group-name string constants of grammar.py lines 85-89
(`_group_array_declarations`, `_group_boundaraycurve`, `_group_patch`,
`_group_surface`).  The source compares them by object identity (`is`), which
for these module-level constants coincides with equality of this enumeration. -/
inductive GName where
  | arrayDecls
  | bcurve
  | patch
  | surface
deriving DecidableEq

/-- The literal Python string of each constant (`'Patch{}'` etc.). -/
def GName.raw : GName → String
  | .arrayDecls => "array_declarations"
  | .bcurve => "BoundaryCurve\x7b\x7d"
  | .patch => "Patch\x7b\x7d"
  | .surface => "Surface\x7b\x7d"

/-- Python `raw.format(n)`: substitute `n` for the `{}` placeholder
(`'array_declarations'` has none and is unchanged). -/
def GName.fmt (g : GName) (n : Int) : String :=
  match g with
  | .arrayDecls => "array_declarations"
  | .bcurve => "BoundaryCurve" ++ toString n
  | .patch => "Patch" ++ toString n
  | .surface => "Surface" ++ toString n

/-- The second slot (`<Block.Name>`) of a descriptor: either one of the group
template constants or a plain string. -/
inductive BName where
  | tmpl (g : GName)
  | str (s : String)
deriving DecidableEq

/-- Python `.format(n)` on the slot. -/
def BName.fmt : BName → Int → String
  | .tmpl g, n => g.fmt n
  | .str s, _ => s

/-- The slot as a plain string (for messages and `data_name` fields). -/
def BName.asName : BName → String
  | .tmpl g => g.raw
  | .str s => s

/-- `array_id is stream_info[0]` (line 513): `array_id` is always one of the
template constants, so identity holds exactly when it is the same constant. -/
def bnameIsGroup : BName → GName → Bool
  | .tmpl g, g2 => g == g2
  | .str _, _ => false

/-- One `[<group>,<Block.Name>,<itemsize>,<datatype>,<optional>]` descriptor. -/
structure StreamDef where
  group : GName
  bname : BName
  itemsize : Option Nat
  dtype : String
  optional : Bool
deriving DecidableEq

/-- A `_hyper_surface_file` value: a flat descriptor, or a list indexed by the
group level (`isinstance(stream_info[0], (list, tuple))` in the source). -/
inductive StreamEntry where
  | single (d : StreamDef)
  | multi (ds : List StreamDef)
deriving DecidableEq

/-- `_hyper_surface_file` (lines 90-150): keyword bytes, the decoded keyword,
and the descriptor(s). -/
def hyper_surface_file : List (List Nat × String × StreamEntry) :=
  [ (bs "Vertices", "Vertices", .multi
      [⟨.arrayDecls, .str "Coordinates", some 3, "float", false⟩,
       ⟨.bcurve, .str "Vertices", some 1, "int", false⟩]),
    (bs "NBranchingPoints", "NBranchingPoints",
      .single ⟨.arrayDecls, .str "NBranchingPoints", none, "int", true⟩),
    (bs "NVerticesOnCurves", "NVerticesOnCurves",
      .single ⟨.arrayDecls, .str "NVerticesOnCurves", none, "int", true⟩),
    (bs "BoundaryCurves", "BoundaryCurves", .multi
      [⟨.arrayDecls, .tmpl .bcurve, some 1, "group", true⟩,
       ⟨.patch, .str "BoundaryCurves", some 1, "int", true⟩]),
    (bs "Patches", "Patches", .multi
      [⟨.arrayDecls, .tmpl .patch, some 1, "group", false⟩,
       ⟨.surface, .str "Patches", some 1, "int", false⟩]),
    (bs "InnerRegion", "InnerRegion",
      .single ⟨.patch, .str "InnerRegion", none, "char", false⟩),
    (bs "OuterRegion", "OuterRegion",
      .single ⟨.patch, .str "OuterRegion", none, "char", false⟩),
    (bs "Triangles", "Triangles",
      .single ⟨.patch, .str "Triangles", some 3, "int", false⟩),
    (bs "BranchingPoints", "BranchingPoints",
      .single ⟨.patch, .str "BranchingPoints", some 1, "int", true⟩),
    (bs "Surfaces", "Surfaces",
      .single ⟨.arrayDecls, .tmpl .surface, some 1, "group", true⟩),
    (bs "Region", "Region",
      .single ⟨.surface, .str "Region", none, "char", false⟩) ]

/-- `_type_sizes` (line 152) restricted to the actual sizes; `'group'` maps to
Python `None` and is only consulted on unreachable paths. -/
def type_sizes : String → Option Nat
  | "byte" => some 1
  | "short" => some 2
  | "int" => some 4
  | "long" => some 8
  | "float" => some 4
  | "double" => some 8
  | "char" => some 1
  | _ => none

/-- `int()` of a digit string (the regex guarantees only digits reach it). -/
def parseNatDigits (l : List Nat) : Nat := l.foldl (fun a b => a * 10 + (b - 48)) 0

/-! ## The parsed-header data model -/

/-- The value a stream contributes: extracted bytes, a scalar count, or a
captured token. -/
inductive EncodedVal where
  | bytes (b : List Nat)
  | int (n : Int)
  | str (s : String)
deriving DecidableEq

/-- An entry of the `array_declarations` list; optional fields are dict keys
only some append sites set. -/
structure ArrayDecl where
  array_name : String
  array_dimension : Option Int := none
  array_blocktype : Bool := false
  array_links : Option (String × Int) := none
  stream_data : Option EncodedVal := none
  stream_type : Option String := none
deriving DecidableEq

/-- An entry of the `data_definitions` list.  `data_shape = none` means the
dict key is absent (the `Vertices` append site); `some v` means present with
value `v` (`none` standing for Python `None`). -/
structure DataDef where
  array_reference : String
  data_name : String
  data_index : Int := -1
  data_dimension : Option Nat := none
  data_type : String
  stream_offset : Int
  stream_data : EncodedVal
  data_shape : Option (Option Int) := none
deriving DecidableEq

/-- One element of the `parsed_data` list: a dict that may carry any of the
three keys the walker looks at.  `designation = some f?` means the key is
present and its dict's `"format"` entry is `f?`. -/
structure Section where
  designation : Option (Option String) := none
  array_declarations : Option (List ArrayDecl) := none
  data_definitions : Option (List DataDef) := none
deriving DecidableEq

/-! ## `readbytes` and `collect_hypersurface_ascii_stream` -/

/-- `readbytes(fhnd, count, stream_data)` (lines 257-262, `drop_data=False`):
returns the extracted bytes, the leftover buffer and the advanced handle. -/
def readbytes (fh : FH) (count : Nat) (stream_data : List Nat) :
    List Nat × List Nat × FH :=
  if stream_data.length ≥ count then
    (stream_data.take count, stream_data.drop count, fh)
  else
    let r := fh.read (count - stream_data.length)
    (stream_data ++ r.1, [], r.2)

/-- The `while at_end_of_file` loop of `collect_hypersurface_ascii_stream`
(lines 272-299).  `last` is the Python local `next_stream` (reassigned from
every search, successful or not); fuel-indexed. -/
def collect_loop (sb : Nat) :
    Nat → FH → List Nat → List Nat → Nat → Option (Nat × Nat) →
    Option ((List Nat × List Nat) × FH)
  | 0, _, _, _, _, _ => none
  | fuel + 1, fh, sd, atEnd, cs, last =>
      if atEnd.isEmpty then
        some ((match last with
               | some (s, _) => sd.take s
               | none => sd, []), fh)
      else
        let sd2 := sd ++ atEnd
        match reSearch sd2 delim3 cs with
        | none =>
            let r := fh.read sb
            collect_loop sb fuel r.2 sd2 r.1 (sd2.length - rescan_overlap) none
        | some (s, e, caps) =>
            if ((caps.get? 0).bind id).isNone then
              if sd2.length ≤ e then
                let r := fh.read sb
                collect_loop sb fuel r.2 sd2 r.1 s (some (s, e))
              else
                let tail := sd2.drop e
                let head := sd2.take s
                if tail.length < rescan_overlap then
                  let r := fh.read sb
                  collect_loop sb fuel r.2 (head ++ tail) r.1 s (some (s, e))
                else
                  collect_loop sb fuel fh head tail s (some (s, e))
            else some ((sd2.take s, sd2.drop s), fh)

/-- `collect_hypersurface_ascii_stream(fhnd, count, stream_data, stream_bytes)`
(lines 264-299): scan forward to the next genuine stream terminator, stripping
comment lines from the collected bytes; the `count` argument is ignored by the
source.  Returns `((collected, remainder), handle)`. -/
def collect_hypersurface_ascii_stream (fh : FH) (_count : Nat) (stream_data : List Nat)
    (sb : Nat) (fuel : Nat) : Option ((List Nat × List Nat) × FH) :=
  let init :=
    if stream_data.isEmpty then
      fh.read (if sb > rescan_overlap then sb else rescan_overlap)
    else (stream_data, fh)
  collect_loop sb fuel init.2 [] init.1 0 none

/-! ## The HyperSurface stream walker -/

/-- The mutable state of `parse_hypersurface_data`'s scanning loop: the
generator's attributes (`remaining_bytes`, `force_expand`, plus whether the
generator has already yielded the final tail), `continue_scanning_at`, the
group-tracking locals of lines 352-356 (`array_id` is genuinely unassigned
until a group is entered, hence an `Option`), and the two lists being appended
to. -/
structure WState where
  fh : FH
  remaining : List Nat
  forceExpand : Bool
  genFinal : Bool
  cs : Nat
  groupLevel : Nat
  itemCount : Int
  groupName : String
  arrayName : String
  arrayId : Option BName
  maxItems : Int
  decls : List ArrayDecl
  defs : List DataDef
deriving DecidableEq

/-- The per-item array declaration synthesized at lines 396-407 and 446-455. -/
def itemDecl (an g : String) (ic : Int) : ArrayDecl :=
  { array_name := an, array_dimension := some 0, array_links := some (g, ic) }

/-- The close-brace handling at lines 388-407: if a `}` occurs before the
match while inside a group, advance the item counter, popping out of the group
when it exceeds the maximum and otherwise synthesizing the next per-item
declaration. -/
def braceAdvance (st : WState) (buffer : List Nat) (s : Nat) : Except PyErr WState :=
  if (reSearch (buffer.take s) delim4 0).isSome then
    if st.groupLevel > 0 then
      let ic := st.itemCount + 1
      if ic > st.maxItems then
        .ok { st with groupLevel := st.groupLevel - 1, itemCount := 0, maxItems := 0 }
      else
        match st.arrayId with
        | none => .error .nameError
        | some aid =>
            let an := aid.fmt ic
            .ok { st with itemCount := ic, arrayName := an,
                          decls := st.decls ++ [itemDecl an st.groupName ic] }
    else .ok st
  else .ok st

/-- The `stream_info[3] == 'group'` branch (lines 426-461). -/
def handleGroupMarker (st : WState) (buffer : List Nat) (e : Nat) (d : StreamDef)
    (streamName : String) (numItems : Option Nat) : Except PyErr WState :=
  if st.maxItems - st.itemCount > 0 then
    .error (.ahds (.itemsMissing (st.maxItems - st.itemCount) st.groupName))
  else if st.groupLevel > 0 ∨ d.group ≠ GName.arrayDecls then
    .error (.ahds .subGroups)
  else
    match numItems with
    | none => .error (.ahds (.itemcountUnreadable streamName))
    | some k =>
        let mi : Int := (k : Int)
        if mi > 0 then
          let an := d.bname.fmt 1
          .ok { st with groupLevel := 1, groupName := streamName, arrayId := some d.bname,
                        itemCount := 1, arrayName := an, maxItems := mi,
                        decls := st.decls ++
                          [{ array_name := streamName, array_dimension := some (mi + 1),
                             array_blocktype := true },
                           itemDecl an streamName 1],
                        remaining := buffer.drop e, cs := 0 }
        else if ¬ d.optional then
          .error (.ahds (.mandatory d.bname.asName))
        else
          .ok { st with maxItems := mi, remaining := buffer.drop e, cs := 0 }

/-- The append stage, lines 481-526: `continue_scanning_at = 0`, then the
`Vertices` / top-level / in-group cases.  `numItems` is the Python local
`num_items` as it stands after lines 462-480 (reset to `None` by the scalar
branch), `encoded` the extracted value, `offset` the computed
`stream_offset`. -/
def appendStage (st : WState) (d : StreamDef) (streamName : String)
    (numItems : Option Nat) (encoded : EncodedVal) (offset : Int) : Except PyErr WState :=
  let st := { st with cs := 0 }
  if streamName = "Vertices" ∧ st.groupLevel = 0 then
    .ok { st with
      decls := st.decls ++
        [{ array_name := streamName, array_dimension := numItems.map (fun k => (k : Int)) }],
      defs := st.defs ++
        [{ array_reference := streamName, data_name := d.bname.asName,
           data_dimension := d.itemsize, data_type := d.dtype,
           stream_offset := offset, stream_data := encoded }] }
  else if streamName ≠ "Vertices" ∧ st.groupLevel = 0 ∧ numItems.isNone then
    .ok { st with
      decls := st.decls ++
        [{ array_name := d.bname.asName, array_dimension := none,
           stream_data := some encoded, stream_type := some d.dtype }] }
  else
    match st.arrayId with
    | none => .error .nameError
    | some aid =>
        if ¬ bnameIsGroup aid d.group then
          .error (.ahds (.notExpected streamName st.arrayName))
        else
          .ok { st with
            defs := st.defs ++
              [{ array_reference := st.arrayName, data_name := d.bname.asName,
                 data_dimension := d.itemsize, data_type := d.dtype,
                 stream_offset := offset, stream_data := encoded,
                 data_shape := some (numItems.map (fun k => (k : Int))) }] }

/-- One loop-body execution of `parse_hypersurface_data` after a successful
delimiter search (lines 388-526): close-brace advance, descriptor resolution,
the group branch, extraction/scalar/token handling, then the append stage.
`binary` selects `readbytes` versus the ASCII collector (the fuel is only for
the latter). -/
def processMatch (binary : Bool) (sb : Nat) (st : WState) (buffer : List Nat)
    (s e : Nat) (caps : Caps) (fuel : Nat) : Option (Except PyErr WState) :=
  match braceAdvance st buffer s with
  | .error er => some (.error er)
  | .ok st =>
      match (caps.get? 0).bind id with
      | none => some (.error (.ahds .unknownStream))
      | some (ka, kb) =>
          let kw := sub buffer ka kb
          match hyper_surface_file.find? (fun t => t.1 == kw) with
          | none => some (.error (.ahds .unknownStream))
          | some entry =>
              let streamName := entry.2.1
              let dOpt : Except PyErr StreamDef :=
                match entry.2.2 with
                | .single d => .ok d
                | .multi ds =>
                    match ds.get? st.groupLevel with
                    | some d => .ok d
                    | none => .error .assertError
              match dOpt with
              | .error er => some (.error er)
              | .ok d =>
                  let numItems0 : Option Nat :=
                    ((caps.get? 1).bind id).map (fun c => parseNatDigits (sub buffer c.1 c.2))
                  if d.dtype = "group" then
                    some (handleGroupMarker st buffer e d streamName numItems0)
                  else if h : d.itemsize.isSome then
                    match numItems0 with
                    | some k =>
                        match type_sizes d.dtype with
                        | none => some (.error .typeError)
                        | some tz =>
                            let numBytes := k * d.itemsize.get h * tz
                            let offset : Int := (st.fh.tell : Int) - buffer.length + e
                            if binary then
                              let r := readbytes st.fh numBytes (buffer.drop e)
                              some (appendStage
                                { st with fh := r.2.2, remaining := r.2.1 }
                                d streamName (some k) (.bytes r.1) offset)
                            else
                              match collect_hypersurface_ascii_stream st.fh numBytes
                                  (buffer.drop e) sb fuel with
                              | none => none
                              | some ((dat, rest), fh2) =>
                                  some (appendStage
                                    { st with fh := fh2, remaining := rest }
                                    d streamName (some k) (.bytes dat) offset)
                    | none => some (.error (.ahds (.countNoItems streamName)))
                  else
                    match numItems0, (caps.get? 1).bind id with
                    | some k, some c =>
                        some (appendStage
                          { st with remaining := buffer.drop e }
                          d streamName none (.int (k : Int))
                          ((st.fh.tell : Int) - buffer.length + c.2))
                    | _, _ =>
                        match (caps.get? 2).bind id with
                        | none => some (.error .typeError)
                        | some (sa, sb2) =>
                            some (appendStage
                              { st with remaining := buffer.drop e }
                              d streamName none (.str (decode_string (sub buffer sa sb2)))
                              ((st.fh.tell : Int) - buffer.length + sb2))

/-- One resume of the generator `iter_hypersurface_stream` (lines 359-378):
read a chunk when the tail is short or an expansion was forced; an empty read
with a non-empty tail yields the tail one final time (after which the
generator returns); an empty read with an empty tail ends the iteration.
Returns the state together with the yielded buffer, or `none` at exhaustion. -/
def genStep (sb : Nat) (st : WState) : Option (WState × List Nat) :=
  if st.remaining.length < rescan_overlap ∨ st.forceExpand then
    let r := st.fh.read sb
    if r.1.isEmpty then
      if st.remaining.isEmpty then none
      else some ({ st with fh := r.2, genFinal := true }, st.remaining)
    else some ({ st with fh := r.2, remaining := st.remaining ++ r.1 },
               st.remaining ++ r.1)
  else some (st, st.remaining)

/-- The `for stream_data in iter_hypersurface_stream()` loop (lines 382-526),
fuel-indexed: resume the generator, search the buffer from
`continue_scanning_at`, and either force another read or process the match. -/
def walk (binary : Bool) (sb : Nat) : Nat → WState → Option (Except PyErr WState)
  | 0, _ => none
  | fuel + 1, st =>
      if st.genFinal then some (.ok st)
      else
        match genStep sb st with
        | none => some (.ok st)
        | some (st1, buffer) =>
            let st2 := { st1 with forceExpand := false }
            match reSearch buffer delim1 st2.cs with
            | none =>
                walk binary sb fuel
                  { st2 with cs := buffer.length - rescan_overlap, forceExpand := true }
            | some (s, e, caps) =>
                match processMatch binary sb st2 buffer s e caps fuel with
                | none => none
                | some (.error er) => some (.error er)
                | some (.ok st3) => walk binary sb fuel st3

/-! ## `parse_hypersurface_data` -/

/-- The section-normalisation of lines 315-341: locate (or insert at index 1)
the `array_declarations` section, then locate (searching from the wrapped
successor index, then from the front) or append the `data_definitions`
section.  Returns the section list, the index and initial list of each of the
two located sections. -/
def normalize (parsed : List Section) :
    List Section × Nat × List ArrayDecl × Nat × List DataDef :=
  let stage1 : List Section × Nat × List ArrayDecl × Nat :=
    match parsed.findIdx? (fun x => x.array_declarations.isSome) with
    | some i =>
        let pid := if i + 1 ≥ parsed.length then 0 else i + 1
        (parsed, i, (((parsed.get? i).bind (fun x => x.array_declarations)).getD []), pid)
    | none =>
        (parsed.take 1 ++ [({ array_declarations := some [] } : Section)] ++ parsed.drop 1,
         1, [], 0)
  let sections := stage1.1
  let pid := stage1.2.2.2
  match (sections.drop pid).findIdx? (fun x => x.data_definitions.isSome) with
  | some j =>
      (sections, stage1.2.1, stage1.2.2.1, pid + j,
       (((sections.get? (pid + j)).bind (fun x => x.data_definitions)).getD []))
  | none =>
      match (sections.take pid).findIdx? (fun x => x.data_definitions.isSome) with
      | some j =>
          (sections, stage1.2.1, stage1.2.2.1, j,
           (((sections.get? j).bind (fun x => x.data_definitions)).getD []))
      | none =>
          (sections ++ [({ data_definitions := some [] } : Section)],
           stage1.2.1, stage1.2.2.1, sections.length, [])

/-- Write the walker's final lists back into the two sections they alias. -/
def reassemble (sections : List Section) (arrIdx defIdx : Nat)
    (decls : List ArrayDecl) (defs : List DataDef) : List Section :=
  sections.mapIdx (fun j x =>
    let x := if j = arrIdx then { x with array_declarations := some decls } else x
    if j = defIdx then { x with data_definitions := some defs } else x)

/-- `parse_hypersurface_data(fhnd, parsed_data, stream_bytes, stream_data)`
(lines 301-527): read the designation, normalise the section list, pick the
extraction routine from the designation's format, and run the stream walk,
returning the section list with the extended declaration/definition lists. -/
def parse_hypersurface_data (fh : FH) (parsed : List Section) (sb : Nat)
    (stream_data : List Nat) (fuel : Nat) : Option (Except PyErr (List Section)) :=
  match parsed.get? 0 with
  | none => some (.error .keyError)
  | some s0 =>
      match s0.designation with
      | none => some (.error .keyError)
      | some desig =>
          let norm := normalize parsed
          let fmt := desig.getD ""
          if fmt.isEmpty then some (.error (.ahds .invalidHyperSurface))
          else
            let binary? : Option Bool :=
              if fmt.take 6 = "BINARY" then some true
              else if fmt.take 5 = "ASCII" then some false
              else none
            match binary? with
            | none => some (.error (.ahds .invalidHyperSurface))
            | some binary =>
                let st0 : WState :=
                  { fh := fh, remaining := stream_data,
                    forceExpand := stream_data.length < rescan_overlap,
                    genFinal := false, cs := 0, groupLevel := 0, itemCount := 1,
                    groupName := "", arrayName := "", arrayId := none, maxItems := 0,
                    decls := norm.2.2.1, defs := norm.2.2.2.2 }
                match walk binary sb fuel st0 with
                | none => none
                | some (.error er) => some (.error er)
                | some (.ok st1) =>
                    some (.ok (reassemble norm.1 norm.2.1 norm.2.2.2.1 st1.decls st1.defs))

/-- `get_parsed_data` (lines 622-633) with the external header grammar parser
factored out: `parsedBase` stands for `parse_header`'s result on the header
text.  Returns the file format, the header bytes, and the final section
list. -/
def parse_pipeline (contents : List Nat) (parsedBase : List Section)
    (header_bytes stream_bytes fuel : Nat) :
    Option (Except PyErr (String × List Nat × List Section)) :=
  match get_header ⟨contents, 0⟩ header_bytes fuel with
  | none => none
  | some (.error e) => some (.error e)
  | some (.ok (fmt, hdr, rem, fh)) =>
      if fmt = "HyperSurface" then
        match parse_hypersurface_data fh parsedBase stream_bytes rem fuel with
        | none => none
        | some (.error e) => some (.error e)
        | some (.ok secs) => some (.ok (fmt, hdr, secs))
      else some (.ok (fmt, hdr, parsedBase))

/-! ## Concrete inputs for counterexamples and witnesses -/

/-- A well-formed BINARY HyperSurface file: designation line, a comment line,
a `Vertices 2` marker ending at byte 50, then the 24-byte binary coordinate
payload, whose first bytes happen to be the whitespace bytes `0x20 0x20 0x0A`
(legitimate float data). -/
def fileC1 : List Nat :=
  bs "# HyperSurface 0.1 BINARY\n# abcdefghij\nVertices 2\n" ++
    [32, 32, 10] ++ List.replicate 21 65

/-- A minimal `parse_header` result: designation, empty array declarations,
empty data definitions. -/
def baseSections : List Section :=
  [{ designation := some (some "BINARY") }, { array_declarations := some [] },
   { data_definitions := some [] }]

/-- A file handle whose whole contents were already consumed by the header
scan, as `get_parsed_data` leaves it when the remainder covers the file. -/
def atEOF (c : List Nat) : FH := ⟨c, c.length⟩

/-- Run the stream walker on `c` as the post-header remainder of a file with
the given designation format. -/
def runWalker (fmt : String) (c : List Nat) : Option (Except PyErr (List Section)) :=
  parse_hypersurface_data (atEOF c)
    [{ designation := some (some fmt) }, { array_declarations := some [] },
     { data_definitions := some [] }] 32768 c 1000

/-- First data definition of a walker result. -/
def walkerDef0 (r : Option (Except PyErr (List Section))) : Option DataDef :=
  match r with
  | some (.ok secs) => ((secs.findSome? (fun x => x.data_definitions)).getD []).head?
  | _ => none

/-- First data definition of a pipeline result. -/
def pipelineDef0 (r : Option (Except PyErr (String × List Nat × List Section))) :
    Option DataDef :=
  match r with
  | some (.ok (_, _, secs)) =>
      ((secs.findSome? (fun x => x.data_definitions)).getD []).head?
  | _ => none

/-- The array declarations of a walker result. -/
def walkerDecls (r : Option (Except PyErr (List Section))) :
    Option (List ArrayDecl) :=
  match r with
  | some (.ok secs) => secs.findSome? (fun x => x.array_declarations)
  | _ => none

/-- HyperSurface stream area: a `Patches 2` group with a single item body,
followed by the next group marker. -/
def fileC3A : List Nat := bs "Patches 2\n\x7b\nInnerRegion Inside\n\x7d\nSurfaces 1\n"

/-- An ASCII HyperSurface stream area whose `Vertices` payload contains a
comment line. -/
def fileC4 : List Nat :=
  bs "Vertices 1\n1.0 2.0 3.0\n# note\nNBranchingPoints 7\nNVerticesOnCurves 55\n"

/-- A fixed-size stream keyword (`Triangles`) with a count, at top level,
before any group was entered. -/
def fileC5 : List Nat := bs "Triangles 2\n" ++ List.replicate 24 66

/-- A file without the `#` marker before the keyword. -/
def fileC7 : List Nat := bs "AmiraMesh BINARY-LITTLE-ENDIAN 2.1\ndefine Lattice 10\n"

/-! ## Spec-side definitions (for refinement claims) -/

/-- Claim C7's classification rule, written from the claim's words: the first
non-blank token after an OPTIONAL `#` marker and whitespace. -/
def claimClassify (l : List Nat) : String :=
  let l1 := l.dropWhile isWS
  let l2 := if l1.head? = some 35 then (l1.drop 1).dropWhile isWS else l1
  let tok := l2.takeWhile (fun b => !(isWS b))
  if tok = bs "AmiraMesh" then "AmiraMesh"
  else if tok = bs "HyperSurface" then "HyperSurface"
  else "Undefined"

/-- The classification `_file_format_match` actually implements, written as a
direct scanner: optional whitespace, a MANDATORY `#`, optional whitespace,
then the keyword followed by a whitespace byte or the end of the read
prefix. -/
def specClassify (l : List Nat) : String :=
  let l1 := l.dropWhile isWS
  if l1.head? = some 35 then
    let l2 := (l1.drop 1).dropWhile isWS
    if l2.take 9 = bs "AmiraMesh" ∧ (l2.length = 9 ∨ (l2.get? 9).any isWS) then
      "AmiraMesh"
    else if l2.take 12 = bs "HyperSurface" ∧ (l2.length = 12 ∨ (l2.get? 12).any isWS) then
      "HyperSurface"
    else "Undefined"
  else "Undefined"

/-- What `detect_format` computes on the bytes it read. -/
def detectClassify (l : List Nat) : String :=
  match matchAt l file_format_match 0 with
  | some (_, caps) =>
      match caps.get? 0 with
      | some (some (a, b)) => decode_string (sub l a b)
      | _ => "Undefined"
  | none => "Undefined"

/-- The key profile of a section: which of the two keys it carries, plus its
designation entry (so identity of untouched sections is visible). -/
def secKeys (x : Section) : Bool × Bool × Option (Option String) :=
  (x.array_declarations.isSome, x.data_definitions.isSome, x.designation)

/-- Claim C9's normalisation, written from the claim's words on key profiles:
if no section holds `array_declarations`, insert one at index 1; if then no
section holds `data_definitions`, append an empty one at the end. -/
def claimNormalize (l : List (Bool × Bool × Option (Option String))) :
    List (Bool × Bool × Option (Option String)) :=
  let l1 := if l.any (fun x => x.1) then l
            else l.take 1 ++ [(true, false, none)] ++ l.drop 1
  if l1.any (fun x => x.2.1) then l1 else l1 ++ [(false, true, none)]

/-- The walker-state invariant: the scan buffer is exactly the tail of the
bytes consumed from the source so far. -/
def WInv (st : WState) : Prop :=
  st.remaining = sub st.fh.contents (st.fh.pos - st.remaining.length) st.fh.pos ∧
  st.remaining.length ≤ st.fh.pos ∧ st.fh.pos ≤ st.fh.contents.length

/-- A data definition whose byte payload round-trips against the source
`contents`, with its end within the first `bound` bytes. -/
def GoodDef (contents : List Nat) (bound : Nat) (d : DataDef) : Prop :=
  ∀ pl, d.stream_data = .bytes pl →
    ∃ q : Nat, d.stream_offset = (q : Int) ∧ q + pl.length ≤ bound ∧
      pl = sub contents q (q + pl.length)

/-- Written from claim C3's words: the sequence of item-body closes of one
group, each step the source's close-brace advance (`braceAdvance`) run on
the buffer and match start the walker sees at that close. -/
def closeRun (st : WState) : List (List Nat × Nat) → Except PyErr WState
  | [] => .ok st
  | p :: rest =>
      match braceAdvance st p.1 p.2 with
      | .error e => .error e
      | .ok st2 => closeRun st2 rest

/-- Whether a pattern contains capture group `g` (used to show scanning a
sub-pattern cannot disturb that capture slot). -/
def setsGrp : RE → Nat → Bool
  | .eps, _ => false
  | .chr _, _ => false
  | .cat a b, g => setsGrp a g || setsGrp b g
  | .alt a b, g => setsGrp a g || setsGrp b g
  | .star _, _ => false
  | .plus _, _ => false
  | .opt r, g => setsGrp r g
  | .grp g2 r, g => g2 == g || setsGrp r g
  | .bol, _ => false
  | .eos, _ => false
  | .nlOrEnd, _ => false

/-- HyperSurface stream area for the well-behaved group runs: `Patches 2` with
two item bodies, then an optional group with zero items. -/
def fileC3B : List Nat :=
  bs "Patches 2\n\x7b\nInnerRegion A\n\x7d\n\x7b\nInnerRegion B\n\x7d\nSurfaces 0\n"

/-- A mandatory group marker with item count 0. -/
def fileC3C : List Nat := bs "Patches 0\n"

/-- A `Patches 3` group with a single item body before the next group
marker. -/
def fileC3D : List Nat := bs "Patches 3\n\x7b\nInnerRegion Inside12345\n\x7d\nSurfaces 0\n"

/-- Format projection of a `detect_format` result. -/
def detectFmt (r : Except PyErr (String × List Nat × FH)) : String :=
  match r with
  | .ok (f, _, _) => f
  | .error _ => ""

/-- An AmiraMesh file whose header ends at the `@1` stream marker. -/
def fileC2 : List Nat :=
  bs "# AmiraMesh BINARY 2.1\ndefine Lattice 4\nLattice { byte Data } @1\n\n@1\n" ++
    [1, 2, 3, 4]

/-- An in-group walker state used to witness the step-level theorems. -/
def exState : WState :=
  { fh := ⟨[], 0⟩, remaining := [], forceExpand := false, genFinal := false,
    cs := 0, groupLevel := 1, itemCount := 1, groupName := "Patches",
    arrayName := "Patch1", arrayId := some (.tmpl .patch), maxItems := 3,
    decls := [], defs := [] }

/-- Stream area for the C6 witness: a `Triangles 1` stream inside a `Patches`
group, with its 12-byte payload and a trailing byte. -/
def fileC6 : List Nat := bs "\nTriangles 1\n" ++ List.replicate 12 66 ++ [120]

/-- Walker state at the `Triangles` marker of `fileC6`: the whole stream area
has been consumed into the buffer. -/
def stC6 : WState :=
  { fh := ⟨fileC6, fileC6.length⟩, remaining := fileC6, forceExpand := false,
    genFinal := false, cs := 0, groupLevel := 1, itemCount := 1,
    groupName := "Patches", arrayName := "Patch1",
    arrayId := some (.tmpl .patch), maxItems := 2, decls := [], defs := [] }

/-- Binary stream area for the C4 witness: a `Vertices 2` marker with its
24-byte coordinate payload. -/
def fileC4w : List Nat := bs "Vertices 2\n" ++ List.replicate 24 65

/-- Initial walker state over `fileC4w`, the whole stream area already
consumed into the buffer. -/
def stC4w : WState :=
  { fh := ⟨fileC4w, fileC4w.length⟩, remaining := fileC4w,
    forceExpand := fileC4w.length < rescan_overlap, genFinal := false, cs := 0,
    groupLevel := 0, itemCount := 1, groupName := "", arrayName := "",
    arrayId := none, maxItems := 0, decls := [], defs := [] }

/-- The state the binary walk on `stC4w` ends in: one declaration and one
payload-carrying data definition. -/
def stC4wFinal : WState :=
  { fh := ⟨fileC4w, 35⟩, remaining := [], forceExpand := false,
    genFinal := false, cs := 0, groupLevel := 0, itemCount := 1,
    groupName := "", arrayName := "", arrayId := none, maxItems := 0,
    decls := [{ array_name := "Vertices", array_dimension := some 2 }],
    defs := [{ array_reference := "Vertices", data_name := "Coordinates",
               data_dimension := some 3, data_type := "float",
               stream_offset := 11,
               stream_data := .bytes (List.replicate 24 65) }] }

/-! ## List and engine lemmas -/

theorem takeWhile_le_length (p : Nat → Bool) :
    ∀ (l : List Nat), (l.takeWhile p).length ≤ l.length := by
  intro l
  induction l with
  | nil => simp
  | cons a l ih =>
      by_cases hp : p a
      · simpa [List.takeWhile, hp] using Nat.succ_le_succ ih
      · simp [List.takeWhile, hp]

theorem takeWhile_get? (p : Nat → Bool) :
    ∀ (l : List Nat) (u : Nat), u < (l.takeWhile p).length →
      ∃ b, l.get? u = some b ∧ p b = true := by
  intro l
  induction l with
  | nil => intro u hu; simp [List.takeWhile] at hu
  | cons a l ih =>
      intro u hu
      by_cases hp : p a
      · cases u with
        | zero => exact ⟨a, rfl, hp⟩
        | succ u =>
            simp only [List.takeWhile, hp, List.length_cons, Nat.succ_lt_succ_iff] at hu
            simpa using ih u hu
      · simp [List.takeWhile, hp] at hu

theorem takeWhile_next (p : Nat → Bool) :
    ∀ (l : List Nat) (b : Nat),
      l.get? (l.takeWhile p).length = some b → p b = false := by
  intro l
  induction l with
  | nil => intro b hb; simp at hb
  | cons a l ih =>
      intro b hb
      by_cases hp : p a
      · simp only [List.takeWhile, hp, List.length_cons, List.get?] at hb
        exact ih b hb
      · simp only [List.takeWhile, hp, List.length_nil, List.get?] at hb
        cases hb; simpa using hp

theorem get?_lt_length {α : Type} {l : List α} {i : Nat} {b : α}
    (h : l.get? i = some b) : i < l.length := by
  rcases List.get?_eq_some.mp h with ⟨h2, _⟩; exact h2

/-- The backtracking positions tried by `star`/`plus`: greedy first, so when
all proper backtrack points fail the result is the continuation at the full
run. -/
theorem findSome?_range_zero {α : Type} (f : Nat → Option α) :
    ∀ (n : Nat), (∀ d, 1 ≤ d → d ≤ n → f d = none) →
      (List.range (n + 1)).findSome? f = f 0 := by
  intro n
  induction n with
  | zero =>
      intro _
      cases hf : f 0 <;> simp [List.range_succ, List.findSome?_cons, hf]
  | succ n ih =>
      intro h
      rw [List.range_succ, List.findSome?_append, ih (fun d h1 h2 => h d h1 (Nat.le_succ_of_le h2))]
      cases hf : f 0 with
      | some v => simp [Option.or]
      | none => simp [Option.or, List.findSome?_cons, h (n + 1) (by omega) (by omega)]

/-- Matching a literal: succeeds exactly when the bytes at the position equal
the literal, consuming its length. -/
theorem reMatch_lit (s : List Nat) (w : List Nat) :
    ∀ (i : Nat) (c : Caps) (k : Nat → Caps → Option (Nat × Caps)),
      reMatch s (lit w) i c k =
        if (s.drop i).take w.length = w then k (i + w.length) c else none := by
  induction w with
  | nil => intro i c k; simp [lit, reMatch]
  | cons ch w ih =>
      intro i c k
      show reMatch s (.cat (.chr fun b => b == ch) (lit w)) i c k = _
      simp only [reMatch]
      cases hg : s.get? i with
      | none =>
          have hnil : s.drop i = [] :=
            List.drop_eq_nil_of_le (List.get?_eq_none.mp hg)
          simp [hnil]
      | some b =>
          have hlt : i < s.length := get?_lt_length hg
          have hdrop : s.drop i = b :: s.drop (i + 1) := by
            have h1 := List.drop_eq_getElem_cons hlt (l := s)
            have h2 : s[i] = b := by
              rcases List.get?_eq_some.mp hg with ⟨h3, h4⟩
              simpa [List.get_eq_getElem] using h4
            rw [h1, h2]
          by_cases hb : b = ch
          · subst hb
            have harith : i + (w.length + 1) = i + 1 + w.length := by omega
            simp [hg, ih, hdrop, harith]
          · simp [hg, hdrop, hb, Ne.symm hb]

/-- Master elimination lemma for the engine: a successful match fired its
continuation at a position that is at least the start, within the input, and
with captures agreeing with the initial ones on every slot the pattern does
not set. -/
theorem reMatch_elim (s : List Nat) :
    ∀ (r : RE) (i : Nat) (c : Caps) (k : Nat → Caps → Option (Nat × Caps))
      (res : Nat × Caps),
      reMatch s r i c k = some res →
      ∃ j c2, k j c2 = some res ∧ i ≤ j ∧ (i ≤ s.length → j ≤ s.length) ∧
        (∀ g, setsGrp r g = false → c2.get? g = c.get? g) := by
  intro r
  induction r with
  | eps =>
      intro i c k res h
      exact ⟨i, c, h, Nat.le_refl _, fun hi => hi, fun g _ => rfl⟩
  | chr p =>
      intro i c k res h
      simp only [reMatch] at h
      split at h
      next b hg =>
        split at h
        · exact ⟨i + 1, c, h, Nat.le_succ _, fun _ => get?_lt_length hg,
            fun g _ => rfl⟩
        · cases h
      next hg => cases h
  | cat a b iha ihb =>
      intro i c k res h
      simp only [reMatch] at h
      obtain ⟨j1, c1, h1, hij1, hb1, hag1⟩ := iha _ _ _ _ h
      obtain ⟨j2, c2, h2, hij2, hb2, hag2⟩ := ihb _ _ _ _ h1
      refine ⟨j2, c2, h2, Nat.le_trans hij1 hij2, fun hi => hb2 (hb1 hi), fun g hg => ?_⟩
      simp only [setsGrp, Bool.or_eq_false_iff] at hg
      rw [hag2 g hg.2, hag1 g hg.1]
  | alt a b iha ihb =>
      intro i c k res h
      simp only [reMatch] at h
      cases ha : reMatch s a i c k with
      | some v =>
          rw [ha] at h; cases h
          obtain ⟨j, c2, hk, hij, hb2, hag⟩ := iha _ _ _ _ ha
          exact ⟨j, c2, hk, hij, hb2, fun g hg => hag g (by
            simp only [setsGrp, Bool.or_eq_false_iff] at hg; exact hg.1)⟩
      | none =>
          rw [ha] at h
          obtain ⟨j, c2, hk, hij, hb2, hag⟩ := ihb _ _ _ _ h
          exact ⟨j, c2, hk, hij, hb2, fun g hg => hag g (by
            simp only [setsGrp, Bool.or_eq_false_iff] at hg; exact hg.2)⟩
  | star p =>
      intro i c k res h
      simp only [reMatch] at h
      obtain ⟨d, hd, hfd⟩ := List.exists_of_findSome?_eq_some h
      have hdlt := List.mem_range.mp hd
      have hrun := takeWhile_le_length p (s.drop i)
      refine ⟨i + ((s.drop i).takeWhile p).length - d, c, hfd, by omega, fun hi => by
        simp only [List.length_drop] at hrun; omega, fun g _ => rfl⟩
  | plus p =>
      intro i c k res h
      simp only [reMatch] at h
      split at h
      · cases h
      · obtain ⟨d, hd, hfd⟩ := List.exists_of_findSome?_eq_some h
        have hdlt := List.mem_range.mp hd
        have hrun := takeWhile_le_length p (s.drop i)
        refine ⟨i + ((s.drop i).takeWhile p).length - d, c, hfd, by omega, fun hi => by
          simp only [List.length_drop] at hrun; omega, fun g _ => rfl⟩
  | opt r ih =>
      intro i c k res h
      simp only [reMatch] at h
      cases ha : reMatch s r i c k with
      | some v =>
          rw [ha] at h; cases h
          obtain ⟨j, c2, hk, hij, hb2, hag⟩ := ih _ _ _ _ ha
          exact ⟨j, c2, hk, hij, hb2, fun g hg => hag g (by
            simpa [setsGrp] using hg)⟩
      | none =>
          rw [ha] at h
          exact ⟨i, c, h, Nat.le_refl _, fun hi => hi, fun g _ => rfl⟩
  | grp g2 r ih =>
      intro i c k res h
      simp only [reMatch] at h
      obtain ⟨j, c2, hk, hij, hb2, hag⟩ := ih _ _ _ _ h
      refine ⟨j, c2.set g2 (some (i, j)), hk, hij, hb2, fun g hg => ?_⟩
      simp only [setsGrp, Bool.or_eq_false_iff, beq_eq_false_iff_ne] at hg
      rw [List.get?_set_ne _ _ hg.1, hag g hg.2]
  | bol =>
      intro i c k res h
      simp only [reMatch] at h
      split at h
      · exact ⟨i, c, h, Nat.le_refl _, fun hi => hi, fun g _ => rfl⟩
      · cases h
  | eos =>
      intro i c k res h
      simp only [reMatch] at h
      split at h
      · exact ⟨i, c, h, Nat.le_refl _, fun hi => hi, fun g _ => rfl⟩
      · split at h
        · exact ⟨i, c, h, Nat.le_refl _, fun hi => hi, fun g _ => rfl⟩
        · cases h
  | nlOrEnd =>
      intro i c k res h
      simp only [reMatch] at h
      split at h
      · exact ⟨i, c, h, Nat.le_refl _, fun hi => hi, fun g _ => rfl⟩
      · cases h

/-- A successful anchored match ends within the input, at or after its
start. -/
theorem matchAt_elim {s : List Nat} {r : RE} {i e : Nat} {caps : Caps}
    (h : matchAt s r i = some (e, caps)) (hi : i ≤ s.length) :
    i ≤ e ∧ e ≤ s.length := by
  obtain ⟨j, c2, hk, hij, hb, _⟩ := reMatch_elim s r i _ _ _ h
  simp only [Option.some.injEq, Prod.mk.injEq] at hk
  obtain ⟨he, -⟩ := hk
  subst he
  exact ⟨hij, hb hi⟩

/-- A successful search yields a position between the search start and the
input length, at which the pattern matches anchored. -/
theorem reSearch_elim {s : List Nat} {r : RE} {st a e : Nat} {caps : Caps}
    (h : reSearch s r st = some (a, e, caps)) :
    st ≤ a ∧ a ≤ s.length ∧ matchAt s r a = some (e, caps) := by
  obtain ⟨d, hd, hfd⟩ := List.exists_of_findSome?_eq_some h
  have hdlt := List.mem_range.mp hd
  obtain ⟨v, hv, hmap⟩ := Option.map_eq_some'.mp hfd
  cases hmap
  exact ⟨Nat.le_add_right _ _, by omega, by rw [hv]⟩

/-- Ends of successful searches stay within the input. -/
theorem reSearch_end_le {s : List Nat} {r : RE} {st a e : Nat} {caps : Caps}
    (h : reSearch s r st = some (a, e, caps)) : a ≤ e ∧ e ≤ s.length := by
  obtain ⟨_, ha, hm⟩ := reSearch_elim h
  exact matchAt_elim hm ha

theorem drop_cons_of_get? {s : List Nat} {t b : Nat} (hg : s.get? t = some b) :
    s.drop t = b :: s.drop (t + 1) := by
  have hlt : t < s.length := get?_lt_length hg
  have h1 := List.drop_eq_getElem_cons hlt (l := s)
  have h2 : s[t] = b := by
    rcases List.get?_eq_some.mp hg with ⟨h3, h4⟩
    simpa [List.get_eq_getElem] using h4
  rw [h1, h2]

theorem dropWhile_eq_drop (p : Nat → Bool) :
    ∀ (l : List Nat), l.dropWhile p = l.drop ((l.takeWhile p).length) := by
  intro l
  induction l with
  | nil => simp
  | cons a l ih =>
      by_cases hp : p a
      · simpa [List.dropWhile, List.takeWhile, hp] using ih
      · simp [List.dropWhile, List.takeWhile, hp]

theorem take_head_eq {s : List Nat} {t n wh : Nat} {wt : List Nat}
    (h : (s.drop t).take (n + 1) = wh :: wt) : s.get? t = some wh := by
  cases hg : s.get? t with
  | none =>
      have : s.drop t = [] := List.drop_eq_nil_of_le (List.get?_eq_none.mp hg)
      rw [this] at h
      cases h
  | some b =>
      rw [drop_cons_of_get? hg, List.take_succ_cons] at h
      injection h with h1
      rw [h1]

/-- Failing a single-character step kills a concatenation headed by it. -/
theorem cat_chr_fail (s : List Nat) (q : Nat → Bool) (r : RE) (t : Nat) (c : Caps)
    (k : Nat → Caps → Option (Nat × Caps)) (b : Nat)
    (hg : s.get? t = some b) (hq : q b = false) :
    reMatch s (.cat (.chr q) r) t c k = none := by
  rw [List.get?_eq_getElem?] at hg
  simp [reMatch, hg, hq]

/-- Greedy `\s*` before a sub-pattern that fails on every whitespace byte
reduces to skipping the maximal whitespace run. -/
theorem cat_star_skip (s : List Nat) (p : Nat → Bool) (r : RE) (i : Nat) (c : Caps)
    (k : Nat → Caps → Option (Nat × Caps))
    (h : ∀ t, i ≤ t → t < i + ((s.drop i).takeWhile p).length →
      reMatch s r t c k = none) :
    reMatch s (.cat (.star p) r) i c k =
      reMatch s r (i + ((s.drop i).takeWhile p).length) c k := by
  have hstep : reMatch s (.cat (.star p) r) i c k =
      reMatch s (.star p) i c (fun j c2 => reMatch s r j c2 k) := rfl
  rw [hstep]
  simp only [reMatch]
  have harith : i + ((s.drop i).takeWhile p).length - i =
      ((s.drop i).takeWhile p).length := by omega
  rw [harith]
  rw [findSome?_range_zero _ _ (fun d h1 h2 =>
    h (i + ((s.drop i).takeWhile p).length - d) (by omega) (by omega))]
  simp

/-- The final `(?:\s+|$)` of the format pattern, under the top continuation:
success when the next byte is whitespace. -/
theorem tailAlt_ws (s : List Nat) (t : Nat) (c : Caps) (b : Nat)
    (hg : s.get? t = some b) (hb : isWS b = true) :
    reMatch s (.alt (.plus isWS) .eos) t c (fun j c2 => some (j, c2)) =
      some (t + ((s.drop t).takeWhile isWS).length, c) := by
  have hrun : 1 ≤ ((s.drop t).takeWhile isWS).length := by
    rw [drop_cons_of_get? hg]
    simp [List.takeWhile, hb]
  simp only [reMatch]
  have hne : ¬ (t + ((s.drop t).takeWhile isWS).length = t) := by omega
  rw [if_neg hne]
  have harith : t + ((s.drop t).takeWhile isWS).length - t =
      ((s.drop t).takeWhile isWS).length := by omega
  rw [harith]
  have hex : ∃ n, ((s.drop t).takeWhile isWS).length = n + 1 :=
    ⟨((s.drop t).takeWhile isWS).length - 1, by omega⟩
  obtain ⟨n, hn⟩ := hex
  rw [hn, List.range_succ_eq_map, List.findSome?_cons]
  simp

/-- The final `(?:\s+|$)` at the end of the input: `$` fires. -/
theorem tailAlt_end (s : List Nat) (t : Nat) (c : Caps) (hg : t = s.length) :
    reMatch s (.alt (.plus isWS) .eos) t c (fun j c2 => some (j, c2)) =
      some (t, c) := by
  have hdrop : s.drop t = [] := List.drop_eq_nil_of_le (by omega)
  simp only [reMatch, hdrop]
  simp [hg]

/-- The final `(?:\s+|$)` before a non-whitespace byte strictly inside the
input fails. -/
theorem tailAlt_fail (s : List Nat) (t : Nat) (c : Caps) (b : Nat)
    (hg : s.get? t = some b) (hb : isWS b = false) :
    reMatch s (.alt (.plus isWS) .eos) t c (fun j c2 => some (j, c2)) = none := by
  have hlt : t < s.length := get?_lt_length hg
  have hrun : ((s.drop t).takeWhile isWS).length = 0 := by
    rw [drop_cons_of_get? hg]
    simp [List.takeWhile, hb]
  have hb10 : ¬ (b = 10) := by
    intro h10
    rw [h10] at hb
    simp [isWS] at hb
  rw [List.get?_eq_getElem?] at hg
  simp only [reMatch, hrun]
  simp [hg, Nat.ne_of_lt hlt, hb10]

/-- The final `(?:\s+|$)` strictly past the end of the input fails. -/
theorem tailAlt_past (s : List Nat) (t : Nat) (c : Caps) (hg : s.length < t) :
    reMatch s (.alt (.plus isWS) .eos) t c (fun j c2 => some (j, c2)) = none := by
  have hdrop : s.drop t = [] := List.drop_eq_nil_of_le (by omega)
  have hg' : s.get? t = none := List.get?_eq_none.mpr (by omega)
  rw [List.get?_eq_getElem?] at hg'
  simp only [reMatch, hdrop]
  simp [hg', show ¬ (t = s.length) from by omega, show ¬ (t + 1 = s.length) from by omega]

/-- A succeeding single-character step advances the position by one. -/
theorem cat_chr_step (s : List Nat) (q : Nat → Bool) (r : RE) (t : Nat) (c : Caps)
    (k : Nat → Caps → Option (Nat × Caps)) (b : Nat)
    (hg : s.get? t = some b) (hq : q b = true) :
    reMatch s (.cat (.chr q) r) t c k = reMatch s r (t + 1) c k := by
  rw [List.get?_eq_getElem?] at hg
  simp [reMatch, hg, hq]

/-- A missing byte kills a concatenation headed by a character step. -/
theorem cat_chr_none (s : List Nat) (q : Nat → Bool) (r : RE) (t : Nat) (c : Caps)
    (k : Nat → Caps → Option (Nat × Caps)) (hg : s.get? t = none) :
    reMatch s (.cat (.chr q) r) t c k = none := by
  rw [List.get?_eq_getElem?] at hg
  simp [reMatch, hg]

/-- Python slice with both ends offset from `a` is a drop-then-take. -/
theorem sub_drop (l : List Nat) (a n : Nat) :
    sub l a (a + n) = (l.drop a).take n := by
  unfold sub
  rw [List.drop_take]
  congr 1
  omega

/-- Python slice as a drop-then-take. -/
theorem sub_eq_drop (l : List Nat) (a b : Nat) :
    sub l a b = (l.drop a).take (b - a) := by
  unfold sub
  rw [List.drop_take]

/-- `readbytes` under the buffer invariant: when the leftover buffer is the
source bytes `[pos - L, pos)` and the source holds the requested count past
the buffer start, the extracted bytes are exactly the source bytes
`[pos - L, pos - L + count)`. -/
theorem readbytes_payload (fh : FH) (count L : Nat) (sd : List Nat)
    (hL : sd.length = L)
    (hbuf : sd = sub fh.contents (fh.pos - L) fh.pos)
    (hsdlen : L ≤ fh.pos) (hpos : fh.pos ≤ fh.contents.length)
    (havail : fh.pos - L + count ≤ fh.contents.length) :
    (readbytes fh count sd).1 =
      sub fh.contents (fh.pos - L) (fh.pos - L + count) ∧
    (readbytes fh count sd).1.length = count := by
  subst hbuf
  unfold readbytes
  rw [hL]
  by_cases hc : L ≥ count
  · rw [if_pos hc]
    dsimp only
    constructor
    · rw [sub_eq_drop, sub_eq_drop, List.take_take]
      congr 1
      omega
    · rw [sub_eq_drop, List.take_take, List.length_take, List.length_drop]
      omega
  · rw [if_neg hc]
    dsimp only [FH.read]
    constructor
    · rw [sub_eq_drop, sub_eq_drop]
      have hsplit : (fh.pos - L + count) - (fh.pos - L) = L + (count - L) := by omega
      rw [hsplit, List.take_add]
      congr 1
      · congr 1
        omega
      · have hdd : (fh.contents.drop (fh.pos - L)).drop L = fh.contents.drop fh.pos := by
          rw [List.drop_drop]
          congr 1
          omega
        rw [hdd]
    · rw [List.length_append, hL, List.length_take, List.length_drop]
      omega

/-- Everything `readbytes` guarantees under the buffer invariant alone (the
source may run short): the extracted bytes are the source bytes starting at
the buffer start, ending within the bytes consumed so far, and the leftover
buffer re-establishes the invariant. -/
theorem readbytes_good (fh : FH) (count L : Nat) (sd : List Nat)
    (hL : sd.length = L)
    (hbuf : sd = sub fh.contents (fh.pos - L) fh.pos)
    (hsdlen : L ≤ fh.pos) (hpos : fh.pos ≤ fh.contents.length) :
    (readbytes fh count sd).1 =
      sub fh.contents (fh.pos - L)
        (fh.pos - L + (readbytes fh count sd).1.length) ∧
    fh.pos - L + (readbytes fh count sd).1.length ≤
      (readbytes fh count sd).2.2.pos ∧
    (readbytes fh count sd).2.2.contents = fh.contents ∧
    (readbytes fh count sd).2.2.pos ≤ fh.contents.length ∧
    fh.pos ≤ (readbytes fh count sd).2.2.pos ∧
    (readbytes fh count sd).2.1 =
      sub fh.contents
        ((readbytes fh count sd).2.2.pos - (readbytes fh count sd).2.1.length)
        (readbytes fh count sd).2.2.pos ∧
    (readbytes fh count sd).2.1.length ≤ (readbytes fh count sd).2.2.pos := by
  subst hbuf
  unfold readbytes
  rw [hL]
  by_cases hc : L ≥ count
  · rw [if_pos hc]
    dsimp only
    have hlen1 : ((sub fh.contents (fh.pos - L) fh.pos).take count).length =
        count := by
      rw [List.length_take, hL]
      omega
    have hlen2 : ((sub fh.contents (fh.pos - L) fh.pos).drop count).length =
        L - count := by
      rw [List.length_drop, hL]
    refine ⟨?_, ?_, rfl, hpos, le_refl _, ?_, ?_⟩
    · rw [hlen1, sub_eq_drop, sub_eq_drop, List.take_take]
      congr 1
      omega
    · rw [hlen1]
      omega
    · rw [hlen2, sub_eq_drop, sub_eq_drop]
      rw [List.drop_take, List.drop_drop]
      congr 1
      · omega
      · congr 1
        omega
    · rw [hlen2]
      omega
  · rw [if_neg hc]
    dsimp only [FH.read]
    have hrl : ((fh.contents.drop fh.pos).take (count - L)).length =
        min (count - L) (fh.contents.length - fh.pos) := by
      rw [List.length_take, List.length_drop]
    have hlen1 : (sub fh.contents (fh.pos - L) fh.pos ++
        (fh.contents.drop fh.pos).take (count - L)).length =
        L + min (count - L) (fh.contents.length - fh.pos) := by
      rw [List.length_append, hL, hrl]
    refine ⟨?_, ?_, rfl, ?_, ?_, ?_, ?_⟩
    · rw [hlen1]
      conv_rhs => rw [sub_eq_drop]
      have hsplit : (fh.pos - L + (L + min (count - L)
          (fh.contents.length - fh.pos))) - (fh.pos - L) =
          L + min (count - L) (fh.contents.length - fh.pos) := by omega
      rw [hsplit, List.take_add]
      congr 1
      · rw [sub_eq_drop]
        congr 1
        omega
      · have hdd : (fh.contents.drop (fh.pos - L)).drop L =
            fh.contents.drop fh.pos := by
          rw [List.drop_drop]
          congr 1
          omega
        rw [hdd]
        rcases Nat.le_total (count - L) (fh.contents.length - fh.pos) with hmin | hmin
        · rw [Nat.min_eq_left hmin]
        · rw [Nat.min_eq_right hmin]
          rw [List.take_all_of_le (by rw [List.length_drop]; exact hmin),
            List.take_all_of_le (by rw [List.length_drop])]
    · rw [hlen1, hrl]
      omega
    · rw [hrl]
      omega
    · rw [hrl]
      omega
    · rw [List.length_nil]
      unfold sub
      rw [Nat.sub_zero]
      exact (List.drop_eq_nil_of_le (by rw [List.length_take]; omega)).symm
    · rw [List.length_nil]
      exact Nat.zero_le _

/-- `braceAdvance` never touches the handle, the tail or the definitions. -/
theorem braceAdvance_shape (st : WState) (buffer : List Nat) (s : Nat)
    (st2 : WState) (h : braceAdvance st buffer s = .ok st2) :
    st2.fh = st.fh ∧ st2.remaining = st.remaining ∧ st2.defs = st.defs := by
  unfold braceAdvance at h
  split at h
  · split at h
    · dsimp only at h
      split at h
      · injection h with h2
        subst h2
        exact ⟨rfl, rfl, rfl⟩
      · split at h
        · cases h
        · injection h with h2
          subst h2
          exact ⟨rfl, rfl, rfl⟩
    · injection h with h2
      subst h2
      exact ⟨rfl, rfl, rfl⟩
  · injection h with h2
    subst h2
    exact ⟨rfl, rfl, rfl⟩

/-- `handleGroupMarker` never touches the handle or the definitions; the tail
is either kept or clipped to the bytes after the match end. -/
theorem handleGroupMarker_shape (st : WState) (buffer : List Nat) (e : Nat)
    (d : StreamDef) (nm : String) (ni : Option Nat) (st2 : WState)
    (h : handleGroupMarker st buffer e d nm ni = .ok st2) :
    st2.fh = st.fh ∧ st2.defs = st.defs ∧
    (st2.remaining = st.remaining ∨ st2.remaining = buffer.drop e) := by
  unfold handleGroupMarker at h
  split at h
  · cases h
  · split at h
    · cases h
    · split at h
      · cases h
      · dsimp only at h
        split at h
        · injection h with h2
          subst h2
          exact ⟨rfl, rfl, Or.inr rfl⟩
        · split at h
          · cases h
          · injection h with h2
            subst h2
            exact ⟨rfl, rfl, Or.inr rfl⟩

/-- Extending a payload-good bound keeps the definition good. -/
theorem GoodDef_mono (c : List Nat) (b b2 : Nat) (d : DataDef)
    (h : GoodDef c b d) (hb : b ≤ b2) : GoodDef c b2 d := by
  intro pl hpl
  obtain ⟨q, h1, h2, h3⟩ := h pl hpl
  exact ⟨q, h1, by omega, h3⟩

/-- The walker invariant only depends on the handle and the tail. -/
theorem WInv_of (st st2 : WState) (hw : WInv st) (hfh : st2.fh = st.fh)
    (hrem : st2.remaining = st.remaining) : WInv st2 := by
  unfold WInv at hw ⊢
  rw [hfh, hrem]
  exact hw

/-- Dropping a prefix of the tail keeps it a suffix of the bytes consumed. -/
theorem rem_drop (st : WState) (e : Nat) (hw : WInv st)
    (he : e ≤ st.remaining.length) :
    st.remaining.drop e =
      sub st.fh.contents (st.fh.pos - (st.remaining.length - e)) st.fh.pos := by
  obtain ⟨h1, h2, h3⟩ := hw
  conv_lhs => rw [h1]
  unfold sub
  rw [List.drop_drop]
  congr 1
  omega

/-- The walker invariant survives clipping the tail. -/
theorem WInv_drop (st st2 : WState) (e : Nat) (hw : WInv st)
    (hfh : st2.fh = st.fh) (hrem : st2.remaining = st.remaining.drop e)
    (he : e ≤ st.remaining.length) : WInv st2 := by
  obtain ⟨h1, h2, h3⟩ := hw
  unfold WInv
  rw [hfh, hrem]
  refine ⟨?_, ?_, h3⟩
  · rw [List.length_drop]
    exact rem_drop st e ⟨h1, h2, h3⟩ he
  · rw [List.length_drop]
    omega

/-- One generator resume: the handle's contents are fixed, the position only
advances, the definitions are untouched, the yielded buffer is the new tail,
and the invariant is maintained. -/
theorem genStep_shape (sb : Nat) (st st1 : WState) (buffer : List Nat)
    (hw : WInv st) (h : genStep sb st = some (st1, buffer)) :
    st1.fh.contents = st.fh.contents ∧ st.fh.pos ≤ st1.fh.pos ∧
    st1.defs = st.defs ∧ buffer = st1.remaining ∧ WInv st1 := by
  obtain ⟨h1, h2, h3⟩ := hw
  unfold genStep at h
  split at h
  · dsimp only [FH.read] at h
    split at h
    · split at h
      · cases h
      · rename_i hEmp _
        rw [List.isEmpty_iff] at hEmp
        injection h with h4
        injection h4 with h4 h5
        subst h4
        subst h5
        rw [hEmp]
        simp only [List.length_nil, Nat.add_zero]
        exact ⟨trivial, Nat.le_refl _, trivial, trivial, h1, h2, h3⟩
    · rename_i hEmp
      injection h with h4
      injection h4 with h4 h5
      subst h4
      subst h5
      have hrl : ((st.fh.contents.drop st.fh.pos).take sb).length ≤
          st.fh.contents.length - st.fh.pos := by
        rw [List.length_take, List.length_drop]
        omega
      refine ⟨rfl, by dsimp only; omega, rfl, rfl, ?_, ?_, ?_⟩
      · dsimp only
        rw [List.length_append]
        have harith : st.fh.pos + ((st.fh.contents.drop st.fh.pos).take sb).length -
            (st.remaining.length + ((st.fh.contents.drop st.fh.pos).take sb).length) =
            st.fh.pos - st.remaining.length := by omega
        rw [harith]
        conv_lhs => rw [h1]
        rw [sub_eq_drop]
        conv_rhs => rw [sub_eq_drop]
        have hsplit : st.fh.pos + ((st.fh.contents.drop st.fh.pos).take sb).length -
            (st.fh.pos - st.remaining.length) =
            st.remaining.length +
              ((st.fh.contents.drop st.fh.pos).take sb).length := by omega
        rw [hsplit, List.take_add]
        congr 1
        · congr 1
          omega
        · have hdd : (st.fh.contents.drop (st.fh.pos - st.remaining.length)).drop
              st.remaining.length = st.fh.contents.drop st.fh.pos := by
            rw [List.drop_drop]
            congr 1
            omega
          rw [hdd]
          rcases Nat.le_total sb (st.fh.contents.length - st.fh.pos) with hmin | hmin
          · congr 1
            rw [List.length_take, List.length_drop]
            omega
          · rw [List.take_all_of_le (by rw [List.length_drop]; omega),
              List.take_all_of_le (Nat.le_refl _)]
      · dsimp only
        rw [List.length_append]
        omega
      · dsimp only
        rw [List.length_take, List.length_drop]
        omega
  · injection h with h4
    injection h4 with h4 h5
    subst h4
    subst h5
    exact ⟨rfl, Nat.le_refl _, rfl, rfl, h1, h2, h3⟩

/-- The append stage never touches the handle or the tail, and appends at most
one data definition, carrying exactly the encoded value and offset it was
given. -/
theorem appendStage_shape (st : WState) (d : StreamDef) (nm : String)
    (ni : Option Nat) (enc : EncodedVal) (off : Int) (st2 : WState)
    (h : appendStage st d nm ni enc off = .ok st2) :
    st2.fh = st.fh ∧ st2.remaining = st.remaining ∧
    (st2.defs = st.defs ∨ ∃ D, st2.defs = st.defs ++ [D] ∧
      D.stream_data = enc ∧ D.stream_offset = off) := by
  unfold appendStage at h
  dsimp only at h
  split at h
  · injection h with h2
    subst h2
    exact ⟨rfl, rfl, Or.inr ⟨_, rfl, rfl, rfl⟩⟩
  · split at h
    · injection h with h2
      subst h2
      exact ⟨rfl, rfl, Or.inl rfl⟩
    · split at h
      · cases h
      · split at h
        · cases h
        · injection h with h2
          subst h2
          exact ⟨rfl, rfl, Or.inr ⟨_, rfl, rfl, rfl⟩⟩

/-- Opening a group: with no items outstanding, at top level, on an
`array_declarations` group descriptor carrying any item count `k > 0`, the
marker handler produces exactly the group-header declaration (dimension
`k + 1`, blocktype) plus the first per-item declaration, and sets
`itemCount := 1`, `maxItems := k`. -/
theorem handleGroupMarker_open (st : WState) (buffer : List Nat) (e : Nat)
    (d : StreamDef) (nm : String) (k : Nat)
    (h1 : st.maxItems - st.itemCount ≤ 0) (h2 : st.groupLevel = 0)
    (h3 : d.group = GName.arrayDecls) (h4 : 0 < k) :
    handleGroupMarker st buffer e d nm (some k) =
      .ok { st with
        groupLevel := 1, groupName := nm,
        arrayId := some d.bname, itemCount := 1,
        arrayName := d.bname.fmt 1, maxItems := (k : Int),
        decls := st.decls ++
          [{ array_name := nm, array_dimension := some ((k : Int) + 1),
             array_blocktype := true },
           itemDecl (d.bname.fmt 1) nm 1],
        remaining := buffer.drop e, cs := 0 } := by
  unfold handleGroupMarker
  rw [if_neg (by omega)]
  rw [if_neg (by
    rintro (ha | hb)
    · omega
    · exact hb h3)]
  dsimp only
  rw [if_pos (by omega : (k : Int) > 0)]

/-- The append stage never touches the group bookkeeping, and inside a group
it never touches the declarations either. -/
theorem appendStage_frame (st : WState) (d : StreamDef) (nm : String)
    (ni : Option Nat) (enc : EncodedVal) (off : Int) (st2 : WState)
    (h : appendStage st d nm ni enc off = .ok st2) :
    st2.groupLevel = st.groupLevel ∧ st2.itemCount = st.itemCount ∧
    st2.maxItems = st.maxItems ∧ st2.groupName = st.groupName ∧
    st2.arrayId = st.arrayId ∧
    (st.groupLevel ≠ 0 → st2.decls = st.decls) := by
  unfold appendStage at h
  dsimp only at h
  split at h
  · rename_i hc
    injection h with h2
    subst h2
    exact ⟨rfl, rfl, rfl, rfl, rfl, fun hg => absurd hc.2 hg⟩
  · split at h
    · rename_i hc
      injection h with h2
      subst h2
      exact ⟨rfl, rfl, rfl, rfl, rfl, fun hg => absurd hc.2.1 hg⟩
    · split at h
      · cases h
      · split at h
        · cases h
        · injection h with h2
          subst h2
          exact ⟨rfl, rfl, rfl, rfl, rfl, fun _ => rfl⟩

/-- The run of the remaining body closes of a group, universal in the item
count: from a state inside the group with `itemCount = c` of `maxItems = N`
items opened, the `N − c + 1` closes succeed, synthesize exactly the
per-item declarations numbered `c + 1 … N` in order — one at each close
except the last, which pops the group and synthesizes nothing — and leave
everything else (definitions, handle, tail) unchanged. -/
theorem closeRun_syn :
    ∀ (L : List (List Nat × Nat)) (st : WState) (aid : BName),
      (∀ p ∈ L, (reSearch (p.1.take p.2) delim4 0).isSome = true) →
      st.groupLevel = 1 → st.arrayId = some aid →
      1 ≤ st.itemCount → st.itemCount ≤ st.maxItems →
      (L.length : Int) = st.maxItems - st.itemCount + 1 →
      ∃ st2, closeRun st L = .ok st2 ∧
        st2.groupLevel = 0 ∧ st2.itemCount = 0 ∧ st2.maxItems = 0 ∧
        st2.decls = st.decls ++
          (List.range (st.maxItems - st.itemCount).toNat).map
            (fun (i : Nat) => itemDecl (aid.fmt (st.itemCount + 1 + (i : Int)))
              st.groupName (st.itemCount + 1 + (i : Int))) ∧
        st2.defs = st.defs ∧ st2.fh = st.fh ∧ st2.remaining = st.remaining ∧
        st2.arrayId = st.arrayId ∧ st2.groupName = st.groupName := by
  intro L
  induction L with
  | nil =>
      intro st aid hbr hlvl haid hc1 hcm hlen
      exfalso
      simp only [List.length_nil, Nat.cast_zero] at hlen
      omega
  | cons p L ih =>
      intro st aid hbr hlvl haid hc1 hcm hlen
      simp only [List.length_cons, Nat.cast_add, Nat.cast_one] at hlen
      unfold closeRun
      unfold braceAdvance
      rw [if_pos (hbr p (List.mem_cons_self p L))]
      rw [if_pos (by omega : st.groupLevel > 0)]
      dsimp only
      by_cases hlast : st.itemCount + 1 > st.maxItems
      · rw [if_pos hlast]
        have hL0 : L = [] := by
          have hl2 : L.length = 0 := by omega
          exact List.length_eq_zero.mp hl2
        subst hL0
        refine ⟨_, rfl, by dsimp only; omega, rfl, rfl, ?_, rfl, rfl, rfl,
          rfl, rfl⟩
        dsimp only
        rw [show (st.maxItems - st.itemCount).toNat = 0 from by omega]
        simp
      · rw [if_neg hlast]
        rw [haid]
        dsimp only
        obtain ⟨st3, hrun, g1, g2, g3, g4, g5, g6, g7, g8, g9⟩ :=
          ih { st with
                itemCount := st.itemCount + 1,
                arrayName := aid.fmt (st.itemCount + 1),
                arrayId := some aid,
                decls := st.decls ++
                  [itemDecl (aid.fmt (st.itemCount + 1)) st.groupName
                    (st.itemCount + 1)] } aid
            (fun q hq => hbr q (List.mem_cons_of_mem p hq))
            hlvl rfl (by dsimp only; omega) (by dsimp only; omega)
            (by dsimp only; omega)
        refine ⟨st3, hrun, g1, g2, g3, ?_, g5, g6, g7, g8, g9⟩
        rw [g4]
        dsimp only
        rw [List.append_assoc]
        congr 1
        rw [show (st.maxItems - st.itemCount).toNat =
          (st.maxItems - (st.itemCount + 1)).toNat + 1 from by omega]
        rw [List.range_succ_eq_map, List.map_cons, List.map_map]
        rw [List.singleton_append]
        congr 1
        · rw [show st.itemCount + 1 + ((0 : Nat) : Int) = st.itemCount + 1
            from by omega]
        · refine List.map_congr_left ?_
          intro i hi
          show itemDecl (aid.fmt (st.itemCount + 1 + 1 + (i : Int)))
              st.groupName (st.itemCount + 1 + 1 + (i : Int)) =
            itemDecl (aid.fmt (st.itemCount + 1 + ((i + 1 : Nat) : Int)))
              st.groupName (st.itemCount + 1 + ((i + 1 : Nat) : Int))
          rw [show st.itemCount + 1 + ((i + 1 : Nat) : Int) =
            st.itemCount + 1 + 1 + (i : Int) from by push_cast; omega]

/-- On a whitespace byte the keyword alternation of `_file_format_match`
fails (both keywords start with a letter). -/
theorem grpKw_fail (s : List Nat) (t : Nat) (c : Caps)
    (k : Nat → Caps → Option (Nat × Caps)) (b : Nat)
    (hg : s.get? t = some b) (hb : isWS b = true) :
    reMatch s (.cat (.grp 0 (.alt (lit (bs "AmiraMesh")) (lit (bs "HyperSurface"))))
      (.alt (.plus isWS) .eos)) t c k = none := by
  have hstep : reMatch s
      (.cat (.grp 0 (.alt (lit (bs "AmiraMesh")) (lit (bs "HyperSurface"))))
        (.alt (.plus isWS) .eos)) t c k =
      (match reMatch s (lit (bs "AmiraMesh")) t c
          (fun j c2 => reMatch s (.alt (.plus isWS) .eos) j
            (c2.set 0 (some (t, j))) k) with
        | some r => some r
        | none => reMatch s (lit (bs "HyperSurface")) t c
            (fun j c2 => reMatch s (.alt (.plus isWS) .eos) j
              (c2.set 0 (some (t, j))) k)) := rfl
  rw [hstep, reMatch_lit, reMatch_lit]
  have hA : ¬ ((s.drop t).take (bs "AmiraMesh").length = bs "AmiraMesh") := by
    intro hcc
    have e1 : bs "AmiraMesh" = 65 :: bs "miraMesh" := by decide
    have e2 : (bs "AmiraMesh").length = 8 + 1 := by decide
    rw [e2, e1] at hcc
    have h65 := take_head_eq hcc
    rw [hg] at h65
    injection h65 with h65
    rw [h65] at hb
    exact absurd hb (by decide)
  have hH : ¬ ((s.drop t).take (bs "HyperSurface").length = bs "HyperSurface") := by
    intro hcc
    have e1 : bs "HyperSurface" = 72 :: bs "yperSurface" := by decide
    have e2 : (bs "HyperSurface").length = 11 + 1 := by decide
    rw [e2, e1] at hcc
    have h72 := take_head_eq hcc
    rw [hg] at h72
    injection h72 with h72
    rw [h72] at hb
    exact absurd hb (by decide)
  rw [if_neg hA, if_neg hH]

/-- The tail `(?:\s+|$)` of the format pattern fires exactly when the byte at
`e` is whitespace or `e` is the end of the input, passing the captures
through unchanged. -/
theorem tail_value (l : List Nat) (e : Nat) (c : Caps) :
    ∃ e2, reMatch l (.alt (.plus isWS) .eos) e c (fun j c2 => some (j, c2)) =
      if e = l.length ∨ (l.get? e).any isWS then some (e2, c) else none := by
  cases hg : l.get? e with
  | some b =>
      have hlt : e < l.length := get?_lt_length hg
      by_cases hwb : isWS b = true
      · refine ⟨e + ((l.drop e).takeWhile isWS).length, ?_⟩
        rw [tailAlt_ws l e c b hg hwb]
        rw [if_pos (Or.inr (by simpa using hwb))]
      · have hwb' : isWS b = false := by simpa using hwb
        refine ⟨0, ?_⟩
        rw [tailAlt_fail l e c b hg hwb']
        rw [if_neg]
        rintro (hend | hany)
        · omega
        · simp only [Option.any] at hany
          rw [hwb'] at hany
          cases hany
  | none =>
      have hle : l.length ≤ e := List.get?_eq_none.mp hg
      by_cases hend : e = l.length
      · refine ⟨e, ?_⟩
        rw [tailAlt_end l e c hend]
        rw [if_pos (Or.inl hend)]
      · refine ⟨0, ?_⟩
        rw [tailAlt_past l e c (by omega)]
        rw [if_neg]
        rintro (h1 | hany)
        · exact hend h1
        · cases hany

/-- Full evaluation of the keyword group and tail of `_file_format_match` at a
fixed position `t1`, composed with the capture decoding of `detect_format`:
the keyword wins exactly when it is the next bytes, followed by whitespace or
the end of the input. -/
theorem kwRun (l : List Nat) (t1 : Nat) :
    (match reMatch l
        (.cat (.grp 0 (.alt (lit (bs "AmiraMesh")) (lit (bs "HyperSurface"))))
          (.alt (.plus isWS) .eos)) t1 (List.replicate 4 none)
        (fun j c => some (j, c)) with
      | some (_, caps) =>
          match caps.get? 0 with
          | some (some (a, b)) => decode_string (sub l a b)
          | _ => "Undefined"
      | none => "Undefined")
    = (if (l.drop t1).take 9 = bs "AmiraMesh" ∧
          ((l.drop t1).length = 9 ∨ ((l.drop t1).get? 9).any isWS) then "AmiraMesh"
      else if (l.drop t1).take 12 = bs "HyperSurface" ∧
          ((l.drop t1).length = 12 ∨ ((l.drop t1).get? 12).any isWS) then "HyperSurface"
      else "Undefined") := by
  have hA9 : (bs "AmiraMesh").length = 9 := by decide
  have hH12 : (bs "HyperSurface").length = 12 := by decide
  have hstep : reMatch l
      (.cat (.grp 0 (.alt (lit (bs "AmiraMesh")) (lit (bs "HyperSurface"))))
        (.alt (.plus isWS) .eos)) t1 (List.replicate 4 none)
      (fun j c => some (j, c)) =
      (match reMatch l (lit (bs "AmiraMesh")) t1 (List.replicate 4 none)
          (fun j c2 => reMatch l (.alt (.plus isWS) .eos) j
            (c2.set 0 (some (t1, j))) (fun j2 c3 => some (j2, c3))) with
        | some r => some r
        | none => reMatch l (lit (bs "HyperSurface")) t1 (List.replicate 4 none)
            (fun j c2 => reMatch l (.alt (.plus isWS) .eos) j
              (c2.set 0 (some (t1, j))) (fun j2 c3 => some (j2, c3)))) := rfl
  rw [hstep, reMatch_lit, reMatch_lit, hA9, hH12]
  by_cases hA : (l.drop t1).take 9 = bs "AmiraMesh"
  · rw [if_pos hA]
    have hge : t1 + 9 ≤ l.length := by
      have hc := congrArg List.length hA
      rw [List.length_take, List.length_drop, hA9] at hc
      omega
    have hcond : ((t1 + 9 = l.length ∨ (l.get? (t1 + 9)).any isWS) ↔
        ((l.drop t1).length = 9 ∨ ((l.drop t1).get? 9).any isWS)) := by
      rw [List.length_drop, List.get?_drop]
      constructor
      · rintro (h1 | h2)
        · exact Or.inl (by omega)
        · exact Or.inr h2
      · rintro (h1 | h2)
        · exact Or.inl (by omega)
        · exact Or.inr h2
    have hHno : ¬ ((l.drop t1).take 12 = bs "HyperSurface") := by
      intro hcc
      have e1 : bs "AmiraMesh" = 65 :: bs "miraMesh" := by decide
      have e2 : bs "HyperSurface" = 72 :: bs "yperSurface" := by decide
      have hA' := hA
      rw [show (9 : Nat) = 8 + 1 from rfl, e1] at hA'
      have h65 := take_head_eq hA'
      rw [show (12 : Nat) = 11 + 1 from rfl, e2] at hcc
      have h72 := take_head_eq hcc
      rw [h65] at h72
      injection h72 with h72
      cases h72
    obtain ⟨e2, hx⟩ := tail_value l (t1 + 9)
      ((List.replicate 4 none : Caps).set 0 (some (t1, t1 + 9)))
    rw [hx]
    by_cases htl : t1 + 9 = l.length ∨ (l.get? (t1 + 9)).any isWS
    · rw [if_pos htl]
      show decode_string (sub l t1 (t1 + 9)) = _
      rw [if_pos ⟨hA, hcond.mp htl⟩]
      rw [sub_drop, hA]
      decide
    · rw [if_neg htl]
      rw [if_neg hHno]
      rw [if_neg (fun hc => htl (hcond.mpr hc.2)), if_neg (fun hc => hHno hc.1)]
  · rw [if_neg hA]
    by_cases hH : (l.drop t1).take 12 = bs "HyperSurface"
    · rw [if_pos hH]
      have hge : t1 + 12 ≤ l.length := by
        have hc := congrArg List.length hH
        rw [List.length_take, List.length_drop, hH12] at hc
        omega
      have hcond : ((t1 + 12 = l.length ∨ (l.get? (t1 + 12)).any isWS) ↔
          ((l.drop t1).length = 12 ∨ ((l.drop t1).get? 12).any isWS)) := by
        rw [List.length_drop, List.get?_drop]
        constructor
        · rintro (h1 | h2)
          · exact Or.inl (by omega)
          · exact Or.inr h2
        · rintro (h1 | h2)
          · exact Or.inl (by omega)
          · exact Or.inr h2
      obtain ⟨e2, hx⟩ := tail_value l (t1 + 12)
        ((List.replicate 4 none : Caps).set 0 (some (t1, t1 + 12)))
      rw [hx]
      by_cases htl : t1 + 12 = l.length ∨ (l.get? (t1 + 12)).any isWS
      · rw [if_pos htl]
        show decode_string (sub l t1 (t1 + 12)) = _
        rw [if_neg (fun hc => hA hc.1), if_pos ⟨hH, hcond.mp htl⟩]
        rw [sub_drop, hH]
        decide
      · rw [if_neg htl]
        rw [if_neg (fun hc => hA hc.1), if_neg (fun hc => htl (hcond.mpr hc.2))]
    · rw [if_neg hH]
      rw [if_neg (fun hc => hA hc.1), if_neg (fun hc => hH hc.1)]

/-- `_file_format_match` as used by `detect_format` is exactly the direct
scanner `specClassify`: optional whitespace, a MANDATORY `#`, optional
whitespace, then the keyword followed by whitespace or the end of the
input. -/
theorem detect_eq_spec (l : List Nat) : detectClassify l = specClassify l := by
  have hbol : detectClassify l =
      (match reMatch l (.cat (.star isWS) (.cat (.chr (fun b => b == 35))
          (.cat (.star isWS)
            (.cat (.grp 0 (.alt (lit (bs "AmiraMesh")) (lit (bs "HyperSurface"))))
              (.alt (.plus isWS) .eos))))) 0 (List.replicate 4 none)
          (fun j c => some (j, c)) with
        | some (_, caps) =>
            match caps.get? 0 with
            | some (some (a, b)) => decode_string (sub l a b)
            | _ => "Undefined"
        | none => "Undefined") := rfl
  rw [hbol]
  have hfail0 : ∀ t, 0 ≤ t → t < 0 + ((l.drop 0).takeWhile isWS).length →
      reMatch l (.cat (.chr (fun b => b == 35))
        (.cat (.star isWS)
          (.cat (.grp 0 (.alt (lit (bs "AmiraMesh")) (lit (bs "HyperSurface"))))
            (.alt (.plus isWS) .eos)))) t (List.replicate 4 none)
        (fun j c => some (j, c)) = none := by
    intro t _ hlt
    simp only [List.drop_zero, Nat.zero_add] at hlt
    obtain ⟨b, hgb, hwb⟩ := takeWhile_get? isWS l t hlt
    refine cat_chr_fail l _ _ t _ _ b hgb ?_
    have hb35 : ¬ b = 35 := by
      intro h35
      rw [h35] at hwb
      exact absurd hwb (by decide)
    exact beq_eq_false_iff_ne.mpr hb35
  rw [cat_star_skip l isWS _ 0 _ _ hfail0]
  simp only [List.drop_zero, Nat.zero_add]
  cases hg0 : l.get? ((l.takeWhile isWS).length) with
  | none =>
      rw [cat_chr_none l (fun x => x == 35) _ _ _ _ hg0]
      have hdl : l.dropWhile isWS = [] := by
        rw [dropWhile_eq_drop]
        exact List.drop_eq_nil_of_le (List.get?_eq_none.mp hg0)
      have hspec : specClassify l = "Undefined" := by
        unfold specClassify
        simp [hdl]
      rw [hspec]
  | some b =>
      by_cases hb35 : b = 35
      · subst hb35
        rw [cat_chr_step l (fun x => x == 35) _ _ _ _ 35 hg0 (by decide)]
        have hfail1 : ∀ t, (l.takeWhile isWS).length + 1 ≤ t →
            t < (l.takeWhile isWS).length + 1 +
              ((l.drop ((l.takeWhile isWS).length + 1)).takeWhile isWS).length →
            reMatch l
              (.cat (.grp 0 (.alt (lit (bs "AmiraMesh")) (lit (bs "HyperSurface"))))
                (.alt (.plus isWS) .eos)) t (List.replicate 4 none)
              (fun j c => some (j, c)) = none := by
          intro t h1 h2
          obtain ⟨b', hgb', hwb'⟩ := takeWhile_get? isWS
            (l.drop ((l.takeWhile isWS).length + 1))
            (t - ((l.takeWhile isWS).length + 1)) (by omega)
          rw [List.get?_drop] at hgb'
          have ht : (l.takeWhile isWS).length + 1 +
              (t - ((l.takeWhile isWS).length + 1)) = t := by omega
          rw [ht] at hgb'
          exact grpKw_fail l t _ _ b' hgb' hwb'
        rw [cat_star_skip l isWS _ ((l.takeWhile isWS).length + 1) _ _ hfail1]
        rw [kwRun]
        have hcons : l.drop ((l.takeWhile isWS).length) =
            35 :: l.drop ((l.takeWhile isWS).length + 1) := drop_cons_of_get? hg0
        have hdd : (l.drop ((l.takeWhile isWS).length + 1)).drop
            ((l.drop ((l.takeWhile isWS).length + 1)).takeWhile isWS).length =
            l.drop ((l.takeWhile isWS).length + 1 +
              ((l.drop ((l.takeWhile isWS).length + 1)).takeWhile isWS).length) := by
          rw [List.drop_drop]
        unfold specClassify
        simp only [dropWhile_eq_drop isWS l, hcons, List.head?_cons, List.drop_succ_cons,
          List.drop_zero, if_true]
        rw [dropWhile_eq_drop isWS (l.drop ((l.takeWhile isWS).length + 1)), hdd]
      · rw [cat_chr_fail l (fun x => x == 35) _ _ _ _ b hg0
          (beq_eq_false_iff_ne.mpr hb35)]
        have hdw : l.dropWhile isWS = b :: l.drop ((l.takeWhile isWS).length + 1) := by
          rw [dropWhile_eq_drop]
          exact drop_cons_of_get? hg0
        have hspec : specClassify l = "Undefined" := by
          unfold specClassify
          simp only [hdw, List.head?_cons]
          rw [if_neg (fun hc => hb35 (Option.some.inj hc))]
        rw [hspec]

/-- One processed match of the binary walker: the handle's contents are
fixed, the position only advances, the invariant is maintained, and every new
data definition is payload-good within the bytes consumed. -/
theorem processMatch_inv (sb fuel : Nat) (st : WState) (buffer : List Nat)
    (s e : Nat) (caps : Caps) (st3 : WState)
    (hw : WInv st) (hbuffer : buffer = st.remaining) (he : e ≤ buffer.length)
    (h : processMatch true sb st buffer s e caps fuel = some (.ok st3)) :
    st3.fh.contents = st.fh.contents ∧ st.fh.pos ≤ st3.fh.pos ∧ WInv st3 ∧
    ∀ D ∈ st3.defs, D ∈ st.defs ∨ GoodDef st3.fh.contents st3.fh.pos D := by
  unfold processMatch at h
  split at h
  · exact absurd h (by simp)
  · rename_i stB heqB
    obtain ⟨hBfh, hBrem, hBdefs⟩ := braceAdvance_shape st buffer s stB heqB
    have hwB : WInv stB := WInv_of st stB hw hBfh hBrem
    split at h
    · exact absurd h (by simp)
    · rename_i ka kb hcap0
      dsimp only at h
      split at h
      · exact absurd h (by simp)
      · rename_i entry hfind
        split at h
        · exact absurd h (by simp)
        · rename_i d heqD
          split at h
          · have hg := Option.some.inj h
            obtain ⟨hGfh, hGdefs, hGrem⟩ :=
              handleGroupMarker_shape _ _ _ _ _ _ _ hg
            refine ⟨?_, ?_, ?_, ?_⟩
            · rw [hGfh, hBfh]
            · rw [hGfh, hBfh]
            · rcases hGrem with hr | hr
              · exact WInv_of st st3 hw (by rw [hGfh, hBfh]) (by rw [hr, hBrem])
              · exact WInv_drop st st3 e hw (by rw [hGfh, hBfh])
                  (by rw [hr, hbuffer]) (by rw [← hbuffer]; exact he)
            · intro D hD
              rw [hGdefs, hBdefs] at hD
              exact Or.inl hD
          · split at h
            · rename_i hsome
              split at h
              · rename_i k hk
                split at h
                · exact absurd h (by simp)
                · rename_i tz htz
                  rw [if_pos (show true = true from rfl)] at h
                  have happ := Option.some.inj h
                  obtain ⟨hAfh, hArem, hAdefs⟩ :=
                    appendStage_shape _ _ _ _ _ _ _ happ
                  have hbd : buffer.drop e = sub stB.fh.contents
                      (stB.fh.pos - (buffer.length - e)) stB.fh.pos := by
                    rw [hBfh, hbuffer]
                    exact rem_drop st e hw (by rw [hbuffer] at he; exact he)
                  have hrb := readbytes_good stB.fh
                    (k * d.itemsize.get hsome * tz) (buffer.length - e)
                    (buffer.drop e) (by rw [List.length_drop]) hbd
                    (by rw [hBfh, hbuffer]
                        have h2 := hw.2.1
                        omega)
                    (by rw [hBfh]; exact hw.2.2)
                  obtain ⟨hr1, hr2, hr3, hr4, hr5, hr6, hr7⟩ := hrb
                  refine ⟨?_, ?_, ?_, ?_⟩
                  · rw [hAfh]
                    dsimp only
                    rw [hr3, hBfh]
                  · rw [hAfh]
                    dsimp only
                    rw [← hBfh]
                    exact hr5
                  · unfold WInv
                    rw [hAfh, hArem]
                    dsimp only
                    refine ⟨?_, hr7, ?_⟩
                    · rw [hr3]
                      exact hr6
                    · rw [hr3]
                      exact hr4
                  · intro D hD
                    rcases hAdefs with hunch | ⟨Dn, hap, hdat, hoff⟩
                    · rw [hunch] at hD
                      dsimp only at hD
                      rw [hBdefs] at hD
                      exact Or.inl hD
                    · rw [hap] at hD
                      dsimp only at hD
                      rw [hBdefs] at hD
                      rcases List.mem_append.mp hD with hmem | hmem
                      · exact Or.inl hmem
                      · right
                        have hDn := List.mem_singleton.mp hmem
                        subst hDn
                        intro pl hpl
                        rw [hdat] at hpl
                        injection hpl with hpl
                        subst hpl
                        refine ⟨stB.fh.pos - (buffer.length - e), ?_, ?_, ?_⟩
                        · rw [hoff]
                          unfold FH.tell
                          have hble : buffer.length ≤ stB.fh.pos := by
                            rw [hBfh, hbuffer]
                            exact hw.2.1
                          omega
                        · rw [hAfh]
                          dsimp only
                          exact hr2
                        · rw [hAfh]
                          dsimp only
                          rw [hr3]
                          exact hr1
              · exact absurd h (by simp)
            · split at h
              · have happ := Option.some.inj h
                obtain ⟨hAfh, hArem, hAdefs⟩ :=
                  appendStage_shape _ _ _ _ _ _ _ happ
                refine ⟨?_, ?_, ?_, ?_⟩
                · rw [hAfh]
                  dsimp only
                  rw [hBfh]
                · rw [hAfh]
                  dsimp only
                  rw [hBfh]
                · exact WInv_drop st st3 e hw
                    (by rw [hAfh]; dsimp only; rw [hBfh])
                    (by rw [hArem]; dsimp only; rw [hbuffer])
                    (by rw [← hbuffer]; exact he)
                · intro D hD
                  rcases hAdefs with hunch | ⟨Dn, hap, hdat, hoff⟩
                  · rw [hunch] at hD
                    dsimp only at hD
                    rw [hBdefs] at hD
                    exact Or.inl hD
                  · rw [hap] at hD
                    dsimp only at hD
                    rw [hBdefs] at hD
                    rcases List.mem_append.mp hD with hmem | hmem
                    · exact Or.inl hmem
                    · right
                      have hDn := List.mem_singleton.mp hmem
                      subst hDn
                      intro pl hpl
                      rw [hdat] at hpl
                      cases hpl
              · split at h
                · exact absurd h (by simp)
                · have happ := Option.some.inj h
                  obtain ⟨hAfh, hArem, hAdefs⟩ :=
                    appendStage_shape _ _ _ _ _ _ _ happ
                  refine ⟨?_, ?_, ?_, ?_⟩
                  · rw [hAfh]
                    dsimp only
                    rw [hBfh]
                  · rw [hAfh]
                    dsimp only
                    rw [hBfh]
                  · exact WInv_drop st st3 e hw
                      (by rw [hAfh]; dsimp only; rw [hBfh])
                      (by rw [hArem]; dsimp only; rw [hbuffer])
                      (by rw [← hbuffer]; exact he)
                  · intro D hD
                    rcases hAdefs with hunch | ⟨Dn, hap, hdat, hoff⟩
                    · rw [hunch] at hD
                      dsimp only at hD
                      rw [hBdefs] at hD
                      exact Or.inl hD
                    · rw [hap] at hD
                      dsimp only at hD
                      rw [hBdefs] at hD
                      rcases List.mem_append.mp hD with hmem | hmem
                      · exact Or.inl hmem
                      · right
                        have hDn := List.mem_singleton.mp hmem
                        subst hDn
                        intro pl hpl
                        rw [hdat] at hpl
                        cases hpl

/-- The binary stream walk: the source contents are fixed, the position only
advances, the invariant is maintained, and every data definition present at
the end either was there at the start or is payload-good — its byte payload
is exactly the source bytes at its recorded offset, ending within the bytes
consumed. -/
theorem walk_inv (sb : Nat) :
    ∀ (fuel : Nat) (st st2 : WState),
      WInv st → walk true sb fuel st = some (.ok st2) →
      st2.fh.contents = st.fh.contents ∧ st.fh.pos ≤ st2.fh.pos ∧ WInv st2 ∧
      ∀ D ∈ st2.defs, D ∈ st.defs ∨ GoodDef st2.fh.contents st2.fh.pos D := by
  intro fuel
  induction fuel with
  | zero =>
      intro st st2 hw h
      rw [show walk true sb 0 st = none from rfl] at h
      cases h
  | succ fuel ih =>
      intro st st2 hw h
      unfold walk at h
      split at h
      · have h3 := Except.ok.inj (Option.some.inj h)
        cases h3
        exact ⟨rfl, Nat.le_refl _, hw, fun D hD => Or.inl hD⟩
      · split at h
        · have h3 := Except.ok.inj (Option.some.inj h)
          cases h3
          exact ⟨rfl, Nat.le_refl _, hw, fun D hD => Or.inl hD⟩
        · rename_i st1 buffer hgen
          dsimp only at h
          obtain ⟨hGc, hGp, hGd, hGb, hGw⟩ := genStep_shape sb st st1 buffer hw hgen
          split at h
          · obtain ⟨ih1, ih2, ih3, ih4⟩ := ih
              ({ st1 with forceExpand := true, cs := buffer.length - rescan_overlap })
              st2 (WInv_of st1 _ hGw rfl rfl) h
            refine ⟨?_, ?_, ih3, ?_⟩
            · rw [ih1]
              exact hGc
            · have ih2' : st1.fh.pos ≤ st2.fh.pos := ih2
              exact le_trans hGp ih2'
            · intro D hD
              rcases ih4 D hD with hin | hgood
              · left
                have hin2 : D ∈ st1.defs := hin
                rw [hGd] at hin2
                exact hin2
              · right
                exact hgood
          · rename_i s e caps hsearch
            split at h
            · cases h
            · exact absurd h (by simp)
            · rename_i st3 hpm
              have he2 : e ≤ buffer.length := (reSearch_end_le hsearch).2
              have hbuf2 : buffer =
                  ({ st1 with forceExpand := false } : WState).remaining := hGb
              obtain ⟨p1, p2, p3, p4⟩ := processMatch_inv sb fuel
                { st1 with forceExpand := false } buffer s e caps st3
                (WInv_of st1 _ hGw rfl rfl) hbuf2 he2 hpm
              obtain ⟨ih1, ih2, ih3, ih4⟩ := ih st3 st2 p3 h
              refine ⟨?_, ?_, ih3, ?_⟩
              · rw [ih1, p1]
                exact hGc
              · have p2' : st1.fh.pos ≤ st3.fh.pos := p2
                omega
              · intro D hD
                rcases ih4 D hD with hin | hgood
                · rcases p4 D hin with hin2 | hgood2
                  · left
                    have hin3 : D ∈ st1.defs := hin2
                    rw [hGd] at hin3
                    exact hin3
                  · right
                    rw [ih1]
                    exact GoodDef_mono _ _ _ _ hgood2 ih2
                · right
                  exact hgood

/-! ## Facts about `detect_format` and the `get_header` loop -/

theorem detect_format_reads (contents : List Nat) (pos fb : Nat) (fmt : String)
    (data : List Nat) (fh1 : FH)
    (h : detect_format ⟨contents, pos⟩ fb = .ok (fmt, data, fh1)) :
    fh1.contents = contents ∧
    data = (contents.drop pos).take (if fb > 50 then fb else 50) ∧
    fh1.pos = pos + data.length := by
  unfold detect_format at h
  split at h
  · cases h
  · simp only [FH.read] at h
    split at h
    · split at h
      · injection h with h2
        injection h2 with _ h3
        injection h3 with h4 h5
        subst h4; subst h5
        exact ⟨rfl, rfl, rfl⟩
      · injection h with h2
        injection h2 with _ h3
        injection h3 with h4 h5
        subst h4; subst h5
        exact ⟨rfl, rfl, rfl⟩
    · injection h with h2
      injection h2 with _ h3
      injection h3 with h4 h5
      subst h4; subst h5
      exact ⟨rfl, rfl, rfl⟩

/-- `detect_format` is `detectClassify` on the bytes it reads, which it
returns together with the advanced handle. -/
theorem detect_format_classify (fh : FH) (fb : Nat) (h : fb ≠ 0) :
    detect_format fh fb =
      .ok (detectClassify (fh.read (if fb > 50 then fb else 50)).1,
        (fh.read (if fb > 50 then fb else 50)).1,
        (fh.read (if fb > 50 then fb else 50)).2) := by
  unfold detect_format
  rw [if_neg h]
  dsimp only
  unfold detectClassify
  cases hm : matchAt (fh.read (if fb > 50 then fb else 50)).1 file_format_match 0 with
  | none => rfl
  | some p =>
      obtain ⟨e, caps⟩ := p
      cases hc : caps.get? 0 with
      | none =>
          dsimp only
          rw [hc]
      | some o =>
          cases o with
          | none =>
              dsimp only
              rw [hc]
          | some ab =>
              obtain ⟨a, b⟩ := ab
              dsimp only
              rw [hc]

/-- `specClassify` on a canonical designation `# <keyword> <tail>`. -/
theorem specClassify_hash (kw tail : List Nat)
    (hkw : kw = bs "AmiraMesh" ∨ kw = bs "HyperSurface") :
    specClassify (35 :: 32 :: (kw ++ 32 :: tail)) = decode_string kw := by
  have h1 : (35 :: 32 :: (kw ++ 32 :: tail)).dropWhile isWS =
      35 :: 32 :: (kw ++ 32 :: tail) := by
    rw [List.dropWhile_cons, if_neg (by decide)]
  have h2 : (32 :: (kw ++ 32 :: tail)).dropWhile isWS = kw ++ 32 :: tail := by
    rw [List.dropWhile_cons, if_pos (by decide)]
    rcases hkw with h | h <;> subst h
    · rw [show bs "AmiraMesh" ++ 32 :: tail = 65 :: (bs "miraMesh" ++ 32 :: tail) from by
        rw [show bs "AmiraMesh" = 65 :: bs "miraMesh" from by decide, List.cons_append]]
      rw [List.dropWhile_cons, if_neg (by decide)]
    · rw [show bs "HyperSurface" ++ 32 :: tail = 72 :: (bs "yperSurface" ++ 32 :: tail) from by
        rw [show bs "HyperSurface" = 72 :: bs "yperSurface" from by decide, List.cons_append]]
      rw [List.dropWhile_cons, if_neg (by decide)]
  unfold specClassify
  simp only [h1, List.head?_cons, List.drop_succ_cons, List.drop_zero, h2, if_true]
  rcases hkw with h | h <;> subst h
  · have hg : (bs "AmiraMesh" ++ 32 :: tail).get? 9 = some 32 := by
      rw [List.get?_append_right (by decide)]
      rfl
    have hc1 : (bs "AmiraMesh" ++ 32 :: tail).take 9 = bs "AmiraMesh" := by
      rw [show (9 : Nat) = (bs "AmiraMesh").length from by decide, List.take_left]
    rw [if_pos ⟨hc1, Or.inr (by rw [hg]; decide)⟩]
    decide
  · have hne : ¬ ((bs "HyperSurface" ++ 32 :: tail).take 9 = bs "AmiraMesh") := by
      rw [List.take_append_eq_append_take]
      simp only [show (9 : Nat) - (bs "HyperSurface").length = 0 from by decide,
        List.take_zero, List.append_nil]
      decide
    rw [if_neg (fun hc => hne hc.1)]
    have hg : (bs "HyperSurface" ++ 32 :: tail).get? 12 = some 32 := by
      rw [List.get?_append_right (by decide)]
      rfl
    have hc1 : (bs "HyperSurface" ++ 32 :: tail).take 12 = bs "HyperSurface" := by
      rw [show (12 : Nat) = (bs "HyperSurface").length from by decide, List.take_left]
    rw [if_pos ⟨hc1, Or.inr (by rw [hg]; decide)⟩]
    decide

/-- Taking at least 15 bytes of a canonical designation keeps the marker, the
keyword and the whitespace byte after it. -/
theorem take_hash (kw rest : List Nat) (hlen : kw.length ≤ 12) (m : Nat)
    (hm : 15 ≤ m) :
    (bs "# " ++ kw ++ 32 :: rest).take m =
      35 :: 32 :: (kw ++ 32 :: rest.take (m - 3 - kw.length)) := by
  have hb : bs "# " = [35, 32] := by decide
  rw [hb]
  rw [List.take_append_eq_append_take]
  rw [List.take_all_of_le (by simp; omega)]
  have harith : m - (([35, 32] : List Nat) ++ kw).length =
      (m - 3 - kw.length) + 1 := by simp; omega
  rw [harith, List.take_succ_cons]
  rfl

/-- `specClassify` classifies every ≥ 15-byte prefix of a canonical
designation as its keyword, whatever the read size. -/
theorem specClassify_take (kw rest : List Nat)
    (hkw : kw = bs "AmiraMesh" ∨ kw = bs "HyperSurface") (m : Nat)
    (hm : 15 ≤ m) :
    specClassify ((bs "# " ++ kw ++ 32 :: rest).take m) = decode_string kw := by
  have hlen : kw.length ≤ 12 := by rcases hkw with h | h <;> subst h <;> decide
  rw [take_hash kw rest hlen m hm]
  exact specClassify_hash kw _ hkw

/-- Invariant of `get_header`'s chunked scan loop: the buffer is exactly the
bytes consumed so far, and a recorded search hit is a real anchored match
within the buffer. -/
theorem gh_loop_inv (delim : RE) (hb : Nat) (contents : List Nat) :
    ∀ (fuel pos : Nat) (data : List Nat) (m? : Option Nat)
      (out : FH × List Nat × Option Nat),
      gh_loop delim hb fuel ⟨contents, pos⟩ data m? = some out →
      data = contents.take pos → pos ≤ contents.length →
      (∀ a, m? = some a →
        ∃ e caps, matchAt data delim a = some (e, caps) ∧ a ≤ data.length) →
      out.1.contents = contents ∧ out.2.1 = contents.take out.1.pos ∧
      out.1.pos ≤ contents.length ∧
      (∀ a, out.2.2 = some a →
        ∃ e caps, matchAt out.2.1 delim a = some (e, caps) ∧ a ≤ out.2.1.length) := by
  intro fuel
  induction fuel with
  | zero => intro pos data m? out h; cases h
  | succ fuel ih =>
      intro pos data m? out h hdata hpos hm
      rw [gh_loop.eq_def] at h
      cases m? with
      | some s =>
          simp only at h
          cases h
          exact ⟨rfl, hdata, hpos, hm⟩
      | none =>
          simp only at h
          split at h
          · -- empty read: return (r.2, data, none)
            rename_i hemp
            cases h
            have hd : hb = 0 ∨ contents.length ≤ pos := by
              simpa [FH.read] using hemp
            have hread : ((contents.drop pos).take hb) = [] := by
              rcases hd with h0 | hle
              · simp [h0]
              · simp [List.drop_eq_nil_of_le hle]
            refine ⟨rfl, by simpa [FH.read, hread] using hdata, ?_, by simp⟩
            simpa [FH.read, hread] using hpos
          · -- non-empty read: recurse on the grown buffer
            have hr1 : (contents.drop pos).take hb =
                (contents.drop pos).take ((contents.drop pos).take hb).length := by
              rw [List.take_eq_take]
              simp
            have hlen1 : ((contents.drop pos).take hb).length ≤ contents.length - pos := by
              simp
            refine ih _ _ _ _ h ?_ ?_ ?_
            · show data ++ _ = contents.take (pos + _)
              rw [hdata, List.take_add]
              simp only [FH.read]
              rw [← hr1]
            · simp only [FH.read]
              omega
            · intro a ha
              obtain ⟨v, hv, hva⟩ := Option.map_eq_some'.mp ha
              obtain ⟨a2, e2, c2⟩ := v
              simp only at hva
              subst hva
              obtain ⟨-, hle, hmat⟩ := reSearch_elim hv
              exact ⟨e2, c2, hmat, hle⟩

/-! ## Facts about `normalize` and `reassemble` -/

theorem findIdx?_go_spec {α : Type} (p : α → Bool) :
    ∀ (l : List α) (i j : Nat), List.findIdx? p l i = some j →
      i ≤ j ∧ ∃ x, l.get? (j - i) = some x ∧ p x = true := by
  intro l
  induction l with
  | nil => intro i j h; simp [List.findIdx?] at h
  | cons a l ih =>
      intro i j h
      rw [List.findIdx?_cons] at h
      by_cases hp : p a
      · rw [if_pos hp] at h
        injection h with h2
        subst h2
        exact ⟨Nat.le_refl _, a, by simp, hp⟩
      · rw [if_neg hp] at h
        obtain ⟨hij, x, hx, hpx⟩ := ih (i + 1) j h
        refine ⟨by omega, x, ?_, hpx⟩
        have : j - i = (j - (i + 1)) + 1 := by omega
        rw [this]
        simpa using hx

theorem findIdx?_spec {α : Type} (p : α → Bool) (l : List α) (j : Nat)
    (h : List.findIdx? p l = some j) : ∃ x, l.get? j = some x ∧ p x = true := by
  obtain ⟨-, x, hx, hpx⟩ := findIdx?_go_spec p l 0 j h
  exact ⟨x, by simpa using hx, hpx⟩

theorem findIdx?_go_isSome {α : Type} (p : α → Bool) :
    ∀ (l : List α) (i : Nat), (List.findIdx? p l i).isSome = l.any p := by
  intro l
  induction l with
  | nil => intro i; simp [List.findIdx?]
  | cons a l ih =>
      intro i
      rw [List.findIdx?_cons]
      by_cases hp : p a
      · simp [hp]
      · simp [hp, ih]

theorem any_map' {α β : Type} (f : α → β) (p : β → Bool) :
    ∀ (l : List α), (l.map f).any p = l.any (fun x => p (f x)) := by
  intro l
  induction l with
  | nil => simp
  | cons a l ih => simp [ih]

theorem get?_mapIdx {α β : Type} :
    ∀ (l : List α) (f : Nat → α → β) (j : Nat),
      (l.mapIdx f).get? j = (l.get? j).map (fun x => f j x) := by
  intro l
  induction l with
  | nil => intro f j; simp
  | cons a l ih =>
      intro f j
      rw [List.mapIdx_cons]
      cases j with
      | zero => simp
      | succ j => simpa using ih (fun i => f (i + 1)) j

/-- Writing the final lists back into sections that already carry the
respective keys leaves every section's key profile unchanged. -/
theorem reassemble_keys (l : List Section) (ai di : Nat)
    (decls : List ArrayDecl) (defs : List DataDef)
    (ha : ∀ x, l.get? ai = some x → x.array_declarations.isSome)
    (hd : ∀ x, l.get? di = some x → x.data_definitions.isSome) :
    (reassemble l ai di decls defs).map secKeys = l.map secKeys := by
  apply List.ext_get?
  intro j
  rw [List.get?_map, List.get?_map]
  unfold reassemble
  rw [get?_mapIdx]
  cases hj : l.get? j with
  | none => simp
  | some x =>
      simp only [Option.map_some']
      have hx1 : j = ai → x.array_declarations.isSome = true := fun he => ha x (he ▸ hj)
      have hx2 : j = di → x.data_definitions.isSome = true := fun he => hd x (he ▸ hj)
      by_cases haj : j = ai
      · by_cases hdj : j = di
        · rw [if_pos hdj, if_pos haj]
          simp [secKeys, hx1 haj, hx2 hdj]
        · rw [if_neg hdj, if_pos haj]
          simp [secKeys, hx1 haj]
      · by_cases hdj : j = di
        · rw [if_pos hdj, if_neg haj]
          simp [secKeys, hx2 hdj]
        · rw [if_neg hdj, if_neg haj]

theorem mapany_arr (l : List Section) :
    (l.map secKeys).any (fun x => x.1) =
      l.any (fun x => x.array_declarations.isSome) := by
  rw [any_map']
  rfl

theorem mapany_def (l : List Section) :
    (l.map secKeys).any (fun x => x.2.1) =
      l.any (fun x => x.data_definitions.isSome) := by
  rw [any_map']
  rfl

/-- Assembly: when the two chosen indices point at sections that carry the
respective keys, writing the walker's lists back preserves every key profile,
and both keys are present in the result. -/
theorem assemble_final (sections : List Section) (ai di : Nat)
    (xa : Section) (hxa : sections.get? ai = some xa)
    (hxa2 : xa.array_declarations.isSome = true)
    (xd : Section) (hxd : sections.get? di = some xd)
    (hxd2 : xd.data_definitions.isSome = true)
    (decls : List ArrayDecl) (defs : List DataDef) :
    (reassemble sections ai di decls defs).map secKeys = sections.map secKeys ∧
    (∃ x ∈ reassemble sections ai di decls defs,
      x.array_declarations.isSome = true) ∧
    (∃ x ∈ reassemble sections ai di decls defs,
      x.data_definitions.isSome = true) := by
  refine ⟨reassemble_keys sections ai di decls defs
      (fun x hx => by rw [hxa] at hx; cases hx; exact hxa2)
      (fun x hx => by rw [hxd] at hx; cases hx; exact hxd2), ?_, ?_⟩
  · have hy : (reassemble sections ai di decls defs).get? ai =
        some (let y := if ai = ai then
                { xa with array_declarations := some decls } else xa
              if ai = di then { y with data_definitions := some defs } else y) := by
      unfold reassemble
      rw [get?_mapIdx, hxa]
      rfl
    refine ⟨_, List.get?_mem hy, ?_⟩
    by_cases hdi : ai = di <;> simp [hdi]
  · have hy : (reassemble sections ai di decls defs).get? di =
        some (let y := if di = ai then
                { xd with array_declarations := some decls } else xd
              if di = di then { y with data_definitions := some defs } else y) := by
      unfold reassemble
      rw [get?_mapIdx, hxd]
      rfl
    refine ⟨_, List.get?_mem hy, ?_⟩
    by_cases hai : di = ai <;> simp [hai]

/-- The core of claim C9: the source's normalisation loops (lines 315-341)
pick sections carrying the two keys — inserting an `array_declarations`
section at index 1 and appending a `data_definitions` section at the end when
absent — and writing the walker's lists back yields exactly the claim's
key-profile transformation, independently of the walker output. -/
theorem normalize_reassemble_spec (parsed : List Section) (hne : 0 < parsed.length)
    (decls : List ArrayDecl) (defs : List DataDef) :
    (reassemble (normalize parsed).1 (normalize parsed).2.1
        (normalize parsed).2.2.2.1 decls defs).map secKeys =
      claimNormalize (parsed.map secKeys) ∧
    (∃ x ∈ reassemble (normalize parsed).1 (normalize parsed).2.1
        (normalize parsed).2.2.2.1 decls defs, x.array_declarations.isSome = true) ∧
    (∃ x ∈ reassemble (normalize parsed).1 (normalize parsed).2.1
        (normalize parsed).2.2.2.1 decls defs, x.data_definitions.isSome = true) := by
  have harr : ∀ (l : List Section),
      (List.findIdx? (fun x => x.array_declarations.isSome) l).isSome =
        l.any (fun x => x.array_declarations.isSome) :=
    fun l => findIdx?_go_isSome _ l 0
  have hdef : ∀ (l : List Section),
      (List.findIdx? (fun x => x.data_definitions.isSome) l).isSome =
        l.any (fun x => x.data_definitions.isSome) :=
    fun l => findIdx?_go_isSome _ l 0
  unfold normalize
  cases hfa : List.findIdx? (fun x => x.array_declarations.isSome) parsed with
  | some i =>
      obtain ⟨xa, hxa, hxa2⟩ := findIdx?_spec _ _ _ hfa
      have hanyA : parsed.any (fun x => x.array_declarations.isSome) = true := by
        rw [← harr, hfa]; rfl
      have hclaim1 : claimNormalize (parsed.map secKeys) =
          (if (parsed.map secKeys).any (fun x => x.2.1) then parsed.map secKeys
           else parsed.map secKeys ++ [(false, true, none)]) := by
        unfold claimNormalize
        rw [mapany_arr, if_pos hanyA]
      simp only
      cases hfd1 : List.findIdx? (fun x => x.data_definitions.isSome)
          (parsed.drop (if i + 1 ≥ parsed.length then 0 else i + 1)) with
      | some j =>
          obtain ⟨xd, hxd, hxd2⟩ := findIdx?_spec _ _ _ hfd1
          rw [List.get?_drop] at hxd
          have hanyD : parsed.any (fun x => x.data_definitions.isSome) = true :=
            List.any_eq_true.mpr ⟨xd, List.get?_mem hxd, hxd2⟩
          simp only
          obtain ⟨g1, g2, g3⟩ := assemble_final parsed i
            ((if i + 1 ≥ parsed.length then 0 else i + 1) + j) xa hxa hxa2 xd hxd hxd2
            decls defs
          refine ⟨?_, g2, g3⟩
          rw [g1, hclaim1, if_pos (by rw [mapany_def]; exact hanyD)]
      | none =>
          cases hfd2 : List.findIdx? (fun x => x.data_definitions.isSome)
              (parsed.take (if i + 1 ≥ parsed.length then 0 else i + 1)) with
          | some j =>
              obtain ⟨xd, hxd, hxd2⟩ := findIdx?_spec _ _ _ hfd2
              have hjlt : j < (parsed.take (if i + 1 ≥ parsed.length then 0 else i + 1)).length :=
                get?_lt_length hxd
              have hjpid : j < (if i + 1 ≥ parsed.length then 0 else i + 1) := by
                simp only [List.length_take] at hjlt
                omega
              have hxd2' : parsed.get? j = some xd := by
                rw [← List.get?_take hjpid]; exact hxd
              have hanyD : parsed.any (fun x => x.data_definitions.isSome) = true :=
                List.any_eq_true.mpr ⟨xd, List.get?_mem hxd2', hxd2⟩
              simp only
              obtain ⟨g1, g2, g3⟩ := assemble_final parsed i j xa hxa hxa2 xd hxd2' hxd2
                decls defs
              refine ⟨?_, g2, g3⟩
              rw [g1, hclaim1, if_pos (by rw [mapany_def]; exact hanyD)]
          | none =>
              have hT : (parsed.take (if i + 1 ≥ parsed.length then 0 else i + 1)).any
                  (fun x => x.data_definitions.isSome) = false := by
                have h2 := hdef (parsed.take (if i + 1 ≥ parsed.length then 0 else i + 1))
                rw [hfd2] at h2
                simpa using h2.symm
              have hD : (parsed.drop (if i + 1 ≥ parsed.length then 0 else i + 1)).any
                  (fun x => x.data_definitions.isSome) = false := by
                have h2 := hdef (parsed.drop (if i + 1 ≥ parsed.length then 0 else i + 1))
                rw [hfd1] at h2
                simpa using h2.symm
              have hanyD : parsed.any (fun x => x.data_definitions.isSome) = false := by
                have h2 := List.any_append
                  (x := parsed.take (if i + 1 ≥ parsed.length then 0 else i + 1))
                  (y := parsed.drop (if i + 1 ≥ parsed.length then 0 else i + 1))
                  (f := fun x => x.data_definitions.isSome)
                rw [List.take_append_drop] at h2
                rw [h2, hT, hD]
                rfl
              simp only
              have hxa' : (parsed ++ [({ data_definitions := some [] } : Section)]).get? i =
                  some xa := by
                rw [List.get?_append (get?_lt_length hxa)]; exact hxa
              have hxd' : (parsed ++ [({ data_definitions := some [] } : Section)]).get?
                  parsed.length = some ({ data_definitions := some [] } : Section) :=
                List.get?_concat_length parsed _
              obtain ⟨g1, g2, g3⟩ := assemble_final
                (parsed ++ [({ data_definitions := some [] } : Section)]) i parsed.length
                xa hxa' hxa2 _ hxd' (by simp) decls defs
              refine ⟨?_, g2, g3⟩
              rw [g1, hclaim1, if_neg (by rw [mapany_def, hanyD]; simp)]
              simp [secKeys]
  | none =>
      have hanyA : parsed.any (fun x => x.array_declarations.isSome) = false := by
        have h2 := harr parsed
        rw [hfa] at h2
        simpa using h2.symm
      have htk1 : (parsed.take 1).length = 1 := by
        simp [List.length_take]
        omega
      have hins1 : (parsed.take 1 ++ [({ array_declarations := some [] } : Section)] ++
          parsed.drop 1).get? 1 = some ({ array_declarations := some [] } : Section) := by
        rw [List.append_assoc, List.get?_append_right (by omega : (parsed.take 1).length ≤ 1)]
        simp [htk1]
      have hmapins : (parsed.take 1 ++ [({ array_declarations := some [] } : Section)] ++
          parsed.drop 1).map secKeys =
          (parsed.map secKeys).take 1 ++ [(true, false, none)] ++ (parsed.map secKeys).drop 1 := by
        simp [List.map_take, List.map_drop, secKeys]
      have hclaim1 : claimNormalize (parsed.map secKeys) =
          (if ((parsed.map secKeys).take 1 ++ [(true, false, none)] ++
              (parsed.map secKeys).drop 1).any (fun x => x.2.1) then
            (parsed.map secKeys).take 1 ++ [(true, false, none)] ++ (parsed.map secKeys).drop 1
           else ((parsed.map secKeys).take 1 ++ [(true, false, none)] ++
              (parsed.map secKeys).drop 1) ++ [(false, true, none)]) := by
        unfold claimNormalize
        rw [mapany_arr, hanyA]
        simp only [Bool.false_eq_true, if_false]
      simp only [List.drop_zero]
      cases hfd1 : List.findIdx? (fun x => x.data_definitions.isSome)
          (parsed.take 1 ++ [({ array_declarations := some [] } : Section)] ++
            parsed.drop 1) with
      | some j =>
          obtain ⟨xd, hxd, hxd2⟩ := findIdx?_spec _ _ _ hfd1
          have hanyD : (parsed.take 1 ++ [({ array_declarations := some [] } : Section)] ++
              parsed.drop 1).any (fun x => x.data_definitions.isSome) = true :=
            List.any_eq_true.mpr ⟨xd, List.get?_mem hxd, hxd2⟩
          simp only
          obtain ⟨g1, g2, g3⟩ := assemble_final
            (parsed.take 1 ++ [({ array_declarations := some [] } : Section)] ++
              parsed.drop 1) 1 (0 + j) _ hins1 (by simp) xd (by simpa using hxd) hxd2
            decls defs
          refine ⟨?_, g2, g3⟩
          have hcond : ((parsed.map secKeys).take 1 ++ [(true, false, none)] ++
              (parsed.map secKeys).drop 1).any (fun x => x.2.1) = true := by
            rw [← hmapins, mapany_def]
            exact hanyD
          rw [g1, hclaim1, if_pos hcond]
          exact hmapins
      | none =>
          have hanyD : (parsed.take 1 ++ [({ array_declarations := some [] } : Section)] ++
              parsed.drop 1).any (fun x => x.data_definitions.isSome) = false := by
            have h2 := hdef (parsed.take 1 ++ [({ array_declarations := some [] } : Section)] ++
              parsed.drop 1)
            rw [hfd1] at h2
            simpa using h2.symm
          have hcond : ((parsed.map secKeys).take 1 ++ [(true, false, none)] ++
              (parsed.map secKeys).drop 1).any (fun x => x.2.1) = false := by
            rw [← hmapins, mapany_def]
            exact hanyD
          have hinslen : 1 < (parsed.take 1 ++ [({ array_declarations := some [] } : Section)] ++
              parsed.drop 1).length := by
            simp [htk1]
          have hxa' : ((parsed.take 1 ++ [({ array_declarations := some [] } : Section)] ++
              parsed.drop 1) ++ [({ data_definitions := some [] } : Section)]).get? 1 =
              some ({ array_declarations := some [] } : Section) := by
            rw [List.get?_append hinslen]
            exact hins1
          have hxd' := List.get?_concat_length
            (parsed.take 1 ++ [({ array_declarations := some [] } : Section)] ++ parsed.drop 1)
            ({ data_definitions := some [] } : Section)
          simp only [List.take_zero, List.findIdx?_nil]
          obtain ⟨g1, g2, g3⟩ := assemble_final
            ((parsed.take 1 ++ [({ array_declarations := some [] } : Section)] ++
              parsed.drop 1) ++ [({ data_definitions := some [] } : Section)]) 1
            (parsed.take 1 ++ [({ array_declarations := some [] } : Section)] ++
              parsed.drop 1).length
            _ hxa' (by simp) _ hxd' (by simp) decls defs
          refine ⟨?_, g2, g3⟩
          rw [g1, hclaim1, if_neg (by rw [hcond]; simp)]
          rw [List.map_append, hmapins]
          simp [secKeys]

/-! ## Claim theorems -/

/-- C2: whenever `get_header` finds a stream-delimiter match (returns a
non-empty remainder), the returned header bytes are exactly the bytes
strictly before the match start, the remainder is the byte suffix beginning
exactly at the match start (the format's delimiter matches anchored at
position `hdr.length` of the buffer, so the header contains no partial
delimiter bytes), and the header concatenated with the remainder equals all
bytes read from the source up to that point.  The source decodes the header
bytes to text with `_decode_string` before returning. -/
theorem C2_header_split :
    ∀ (contents : List Nat) (hb fuel : Nat) (fmt : String)
      (hdr rem : List Nat) (fh2 : FH),
      get_header ⟨contents, 0⟩ hb fuel = some (.ok (fmt, hdr, rem, fh2)) →
      rem ≠ [] →
      fh2.contents = contents ∧ fh2.pos ≤ contents.length ∧
      hdr ++ rem = contents.take fh2.pos ∧
      matchAt (hdr ++ rem) (if fmt = "AmiraMesh" then delim0 else delim1)
        hdr.length ≠ none := by
  intro contents hb fuel fmt hdr rem fh2 h hrem
  unfold get_header at h
  split at h
  · simp at h
  · -- detect_format succeeded or failed
    cases hdet : detect_format ⟨contents, 0⟩
        (if hb ≥ rescan_overlap then hb else rescan_overlap) with
    | error e => rw [hdet] at h; simp at h
    | ok trip =>
        obtain ⟨fmt0, data, fh1⟩ := trip
        rw [hdet] at h
        simp only at h
        split at h
        · -- a recognised format
          obtain ⟨hc1, hdata, hpos1⟩ := detect_format_reads contents 0 _ _ _ _ hdet
          obtain ⟨fc, fp⟩ := fh1
          simp only at hc1
          have hc2 : contents = fc := hc1.symm
          subst hc2
          simp only at hpos1
          cases hloop : gh_loop (if fmt0 = "AmiraMesh" then delim0 else delim1)
              hb fuel ⟨contents, fp⟩ data
              ((reSearch data (if fmt0 = "AmiraMesh" then delim0 else delim1) 0).map
                (fun x => x.1)) with
          | none => rw [hloop] at h; cases h
          | some out =>
              rw [hloop] at h
              obtain ⟨fh2', data2, m?⟩ := out
              have hdata' : data = contents.take fp := by
                rw [hpos1, hdata]
                simp only [List.drop_zero, List.length_take, Nat.zero_add]
                simp only [List.take_eq_take, inf_le_right, inf_of_le_left]
              have hfp : fp ≤ contents.length := by
                rw [hpos1, hdata]
                simp
              have hinit : ∀ a,
                  ((reSearch data (if fmt0 = "AmiraMesh" then delim0 else delim1) 0).map
                    (fun x => x.1)) = some a →
                  ∃ e caps,
                    matchAt data (if fmt0 = "AmiraMesh" then delim0 else delim1) a =
                      some (e, caps) ∧ a ≤ data.length := by
                intro a ha
                obtain ⟨v, hv, hva⟩ := Option.map_eq_some'.mp ha
                obtain ⟨a2, e2, c2⟩ := v
                simp only at hva
                subst hva
                obtain ⟨-, hle, hmat⟩ := reSearch_elim hv
                exact ⟨e2, c2, hmat, hle⟩
              obtain ⟨hoc, hod, hop, hom⟩ :=
                gh_loop_inv _ hb contents fuel fp data _ _ hloop hdata' hfp hinit
              simp only at hoc hod hop hom
              cases m? with
              | some s =>
                  simp only at h
                  injection h with h2
                  injection h2 with h3
                  injection h3 with hfmt h4
                  injection h4 with hhdr h5
                  injection h5 with hrem2 hfh2
                  subst hfmt; subst hhdr; subst hrem2; subst hfh2
                  obtain ⟨e, caps, hmat, hsle⟩ := hom s rfl
                  have hcat : data2.take s ++ data2.drop s = data2 :=
                    List.take_append_drop s data2
                  have hlen : (data2.take s).length = s := by
                    simp [List.length_take]
                    omega
                  refine ⟨hoc, hop, by rw [hcat, hod], ?_⟩
                  rw [hcat, hlen, hmat]
                  simp
              | none =>
                  simp only at h
                  injection h with h2
                  injection h2 with h3
                  injection h3 with hfmt h4
                  injection h4 with hhdr h5
                  injection h5 with hrem2 hfh2
                  exact absurd hrem2.symm hrem
        · simp at h

/-- C9: on every successful return, `parse_hypersurface_data` hands back the
section list it was given with exactly the claim's normalisation applied to
its key profiles — an `array_declarations` section inserted at index 1 when
the input lacked one, an empty `data_definitions` section appended at the end
when the input lacked one — and the result always contains a section with
each of the two keys.  The normalisation happens before any stream is walked:
the key profiles are independent of the walker's output (the lemma
`normalize_reassemble_spec` holds for arbitrary walker lists). -/
theorem C9_sections :
    ∀ (fh : FH) (parsed : List Section) (sb : Nat) (sd : List Nat) (fuel : Nat)
      (res : List Section),
      parse_hypersurface_data fh parsed sb sd fuel = some (.ok res) →
      res.map secKeys = claimNormalize (parsed.map secKeys) ∧
      (∃ x ∈ res, x.array_declarations.isSome = true) ∧
      (∃ x ∈ res, x.data_definitions.isSome = true) := by
  intro fh parsed sb sd fuel res h
  unfold parse_hypersurface_data at h
  split at h
  · simp at h
  · rename_i s0 hg0
    have hlen : 0 < parsed.length := get?_lt_length hg0
    split at h
    · simp at h
    · dsimp only at h
      split at h
      · simp at h
      · split at h
        · simp at h
        · split at h
          · cases h
          · simp at h
          · rename_i st1 hw
            simp only [Option.some.injEq, Except.ok.injEq] at h
            subst h
            exact normalize_reassemble_spec parsed hlen st1.decls st1.defs

/-- C9 witness: the normalisation applied to a minimal section list over an
empty stream area, with the parse run discharged by evaluation. -/
theorem C9_sections_witness :
    parse_hypersurface_data (atEOF []) baseSections 32768 [] 10 =
      some (.ok baseSections) ∧
    (baseSections.map secKeys = claimNormalize (baseSections.map secKeys) ∧
      (∃ x ∈ baseSections, x.array_declarations.isSome = true) ∧
      (∃ x ∈ baseSections, x.data_definitions.isSome = true)) :=
  ⟨by decide,
   C9_sections (atEOF []) baseSections 32768 [] 10 baseSections (by decide)⟩

/-- C2 witness instantiation on the AmiraMesh file `fileC2`, whose header
scan splits at the standalone `@1` marker (byte 64) after consuming all 73
bytes. -/
theorem C2_header_split_witness :
    (⟨fileC2, 73⟩ : FH).contents = fileC2 ∧ (⟨fileC2, 73⟩ : FH).pos ≤ fileC2.length ∧
    fileC2.take 64 ++ fileC2.drop 64 = fileC2.take (⟨fileC2, 73⟩ : FH).pos ∧
    matchAt (fileC2.take 64 ++ fileC2.drop 64)
      (if ("AmiraMesh" : String) = "AmiraMesh" then delim0 else delim1)
      (fileC2.take 64).length ≠ none :=
  C2_header_split fileC2 30 100 "AmiraMesh" (fileC2.take 64) (fileC2.drop 64)
    ⟨fileC2, 73⟩ (by decide) (by decide)

/-- C8 counterexample: `_rescan_overlap` is 32 while the longest descriptor
keyword (`NVerticesOnCurves`) has length 17, so it is neither the longest
keyword length plus 16 (which would be 33) nor that sum rounded up to a
multiple of 16 (which would be 48). -/
theorem C8_counterexample :
    rescan_overlap = 32 ∧
    (hyper_surface_keywords.foldl (fun m k => max m k.length) 0) = 17 ∧
    rescan_overlap ≠
      (hyper_surface_keywords.foldl (fun m k => max m k.length) 0) + 16 ∧
    rescan_overlap ≠
      ((hyper_surface_keywords.foldl (fun m k => max m k.length) 0) + 16 + 15) / 16 * 16 := by
  decide

/-- C8 (amended): `_rescan_overlap` is the longest descriptor keyword length
rounded up to the next multiple of 16 — `ceil(L/16)*16` with no added
constant: it is the unique multiple of 16 in `[L, L + 16)`, and with `L = 17`
it equals 32. -/
theorem C8_amended :
    (hyper_surface_keywords.foldl (fun m k => max m k.length) 0) = 17 ∧
    rescan_overlap = 32 ∧
    rescan_overlap % 16 = 0 ∧
    (hyper_surface_keywords.foldl (fun m k => max m k.length) 0) ≤ rescan_overlap ∧
    rescan_overlap <
      (hyper_surface_keywords.foldl (fun m k => max m k.length) 0) + 16 := by
  decide

/-- C10: `readbytes` never signals a short source: it returns at most `count`
bytes — exactly `count` whenever the leftover buffer plus the unread source
hold at least `count` bytes, and otherwise the leftover plus the whole rest of
the source, with an empty leftover buffer. -/
theorem C10_readbytes :
    ∀ (fh : FH) (count : Nat) (sd : List Nat),
      (readbytes fh count sd).1.length ≤ count ∧
      (count ≤ sd.length + (fh.contents.length - fh.pos) →
        (readbytes fh count sd).1.length = count) ∧
      (sd.length + (fh.contents.length - fh.pos) < count →
        (readbytes fh count sd).1 = sd ++ fh.contents.drop fh.pos ∧
        (readbytes fh count sd).2.1 = []) := by
  intro fh count sd
  unfold readbytes FH.read
  by_cases h : sd.length ≥ count
  · simp only [h, if_pos]
    refine ⟨by simp [Nat.min_le_left], fun _ => by simp; omega, fun hlt => ?_⟩
    omega
  · simp only [h, if_neg, not_false_iff]
    have hlen : ((fh.contents.drop fh.pos).take (count - sd.length)).length =
        min (count - sd.length) (fh.contents.length - fh.pos) := by
      simp
    refine ⟨?_, fun hge => ?_, fun hlt => ?_⟩
    · simp only [List.length_append, hlen]; omega
    · simp only [List.length_append, hlen]; omega
    · constructor
      · have : fh.contents.length - fh.pos ≤ count - sd.length := by omega
        rw [List.take_of_length_le (by simpa using this)]
      · trivial

/-- C10 witness: both hypothesis cases at concrete inputs. -/
theorem C10_readbytes_witness :
    (readbytes ⟨[1, 2, 3, 4, 5], 0⟩ 3 [9]).1.length = 3 ∧
    (readbytes ⟨[1, 2], 0⟩ 9 [7]).1 = [7] ++ [1, 2] ∧
    (readbytes ⟨[1, 2], 0⟩ 9 [7]).2.1 = [] :=
  ⟨(C10_readbytes ⟨[1, 2, 3, 4, 5], 0⟩ 3 [9]).2.1 (by decide),
   by simpa using (C10_readbytes ⟨[1, 2], 0⟩ 9 [7]).2.2 (by decide)⟩

/-- C7 counterexample: on a file whose first token is `AmiraMesh` without a
preceding `#`, `detect_format` returns `Undefined`, while the claim's rule
(the `#` marker being optional) classifies it as `AmiraMesh`. -/
theorem C7_counterexample :
    detect_format ⟨fileC7, 0⟩ 50 = .ok ("Undefined", fileC7.take 50, ⟨fileC7, 50⟩) ∧
    claimClassify (fileC7.take 50) = "AmiraMesh" ∧
    ("Undefined" : String) ≠ "AmiraMesh" := by decide

/-- C7 (amended): for every handle and nonzero `format_bytes`,
`detect_format` reads `max(format_bytes, 50)` bytes and classifies them by
`specClassify` — optional whitespace, a MANDATORY `#` marker, optional
whitespace, then `AmiraMesh` or `HyperSurface` followed by a whitespace byte
or the end of the bytes read; everything else is `"Undefined"`.  The bytes
read are returned to the caller together with the advanced handle. -/
theorem C7_amended (fh : FH) (fb : Nat) (h : fb ≠ 0) :
    detect_format fh fb =
      .ok (specClassify (fh.read (if fb > 50 then fb else 50)).1,
        (fh.read (if fb > 50 then fb else 50)).1,
        (fh.read (if fb > 50 then fb else 50)).2) := by
  rw [detect_format_classify fh fb h, detect_eq_spec]

/-- C7 amended witness: the amended theorem applied to a concrete
`AmiraMesh` designation line, with the format actually evaluated. -/
theorem C7_amended_witness :
    ((1 : Nat) ≠ 0 ∧
      detect_format ⟨bs "# AmiraMesh 1.0\n", 0⟩ 1 =
        .ok (specClassify ((FH.read ⟨bs "# AmiraMesh 1.0\n", 0⟩
              (if 1 > 50 then 1 else 50)).1),
          (FH.read ⟨bs "# AmiraMesh 1.0\n", 0⟩ (if 1 > 50 then 1 else 50)).1,
          (FH.read ⟨bs "# AmiraMesh 1.0\n", 0⟩ (if 1 > 50 then 1 else 50)).2)) ∧
    specClassify ((FH.read ⟨bs "# AmiraMesh 1.0\n", 0⟩
        (if 1 > 50 then 1 else 50)).1) = "AmiraMesh" :=
  ⟨⟨by decide, C7_amended ⟨bs "# AmiraMesh 1.0\n", 0⟩ 1 (by decide)⟩, by decide⟩

/-- C3 counterexample: a `Patches 2` group with exactly one item body before
the next group marker makes the walker raise the `AHDSStreamError`
"HyperSurface sub groups not suported" — not a message stating that items of
the group are missing. -/
theorem C3_counterexample :
    runWalker "ASCII" fileC3A = some (.error (.ahds .subGroups)) ∧
    ∀ (n : Int) (g : String), AhdsMsg.subGroups ≠ .itemsMissing n g :=
  ⟨by decide, fun _ _ h => nomatch h⟩

/-- C3 (amended): the per-item synthesis is universal in the item count `N`
and the state.  (i) A group marker with any count `N > 0`, entering from top
level with no items outstanding, synthesizes exactly the group-header
declaration (dimension `N + 1`, blocktype) plus the first per-item
declaration `Base1`, setting `itemCount := 1`, `maxItems := N` — an exact
state equation.  (ii) The run of the `N − itemCount + 1` remaining body
closes synthesizes exactly `Base(itemCount+1) … BaseN` in order — one per
close except the last, which pops the group and synthesizes nothing — so
with the marker's `Base1` the group yields exactly the `N` declarations
`Base1 … BaseN` when all `N` bodies are present.  (iii) Nothing else can
interfere: the append stage never touches the group bookkeeping and, inside
a group, never touches the declarations; and (iv)/(v) a further group marker
inside the group always errors — `itemsMissing (maxItems − itemCount)` when
at least one item slot was never opened, `subGroups` otherwise (so a single
missing body out of `N` reports `subGroups`, see the counterexample).  A
count-0 marker whose descriptor is not optional raises `AHDSStreamError`
naming the group TEMPLATE (`Patch{}` with literal braces), not the group
keyword.  The three concrete runs exhibit the full pipeline end to end. -/
theorem C3_amended :
    (∀ (st : WState) (buffer : List Nat) (e : Nat) (d : StreamDef)
        (nm : String) (k : Nat),
      st.maxItems - st.itemCount ≤ 0 → st.groupLevel = 0 →
      d.group = GName.arrayDecls → 0 < k →
      handleGroupMarker st buffer e d nm (some k) =
        .ok { st with
          groupLevel := 1, groupName := nm,
          arrayId := some d.bname, itemCount := 1,
          arrayName := d.bname.fmt 1, maxItems := (k : Int),
          decls := st.decls ++
            [{ array_name := nm, array_dimension := some ((k : Int) + 1),
               array_blocktype := true },
             itemDecl (d.bname.fmt 1) nm 1],
          remaining := buffer.drop e, cs := 0 }) ∧
    (∀ (L : List (List Nat × Nat)) (st : WState) (aid : BName),
      (∀ p ∈ L, (reSearch (p.1.take p.2) delim4 0).isSome = true) →
      st.groupLevel = 1 → st.arrayId = some aid →
      1 ≤ st.itemCount → st.itemCount ≤ st.maxItems →
      (L.length : Int) = st.maxItems - st.itemCount + 1 →
      ∃ st2, closeRun st L = .ok st2 ∧
        st2.groupLevel = 0 ∧ st2.itemCount = 0 ∧ st2.maxItems = 0 ∧
        st2.decls = st.decls ++
          (List.range (st.maxItems - st.itemCount).toNat).map
            (fun (i : Nat) => itemDecl (aid.fmt (st.itemCount + 1 + (i : Int)))
              st.groupName (st.itemCount + 1 + (i : Int))) ∧
        st2.defs = st.defs ∧ st2.fh = st.fh ∧ st2.remaining = st.remaining ∧
        st2.arrayId = st.arrayId ∧ st2.groupName = st.groupName) ∧
    (∀ (st : WState) (d : StreamDef) (nm : String) (ni : Option Nat)
        (enc : EncodedVal) (off : Int) (st2 : WState),
      appendStage st d nm ni enc off = .ok st2 →
      st2.groupLevel = st.groupLevel ∧ st2.itemCount = st.itemCount ∧
      st2.maxItems = st.maxItems ∧ st2.groupName = st.groupName ∧
      st2.arrayId = st.arrayId ∧
      (st.groupLevel ≠ 0 → st2.decls = st.decls)) ∧
    (∀ (st : WState) (buffer : List Nat) (e : Nat) (d : StreamDef)
        (nm : String) (ni : Option Nat),
      st.maxItems - st.itemCount > 0 →
      handleGroupMarker st buffer e d nm ni =
        .error (.ahds (.itemsMissing (st.maxItems - st.itemCount)
          st.groupName))) ∧
    (∀ (st : WState) (buffer : List Nat) (e : Nat) (d : StreamDef)
        (nm : String) (ni : Option Nat),
      st.maxItems - st.itemCount ≤ 0 → 0 < st.groupLevel →
      handleGroupMarker st buffer e d nm ni = .error (.ahds .subGroups)) ∧
    walkerDecls (runWalker "ASCII" fileC3B) =
      some [{ array_name := "Patches", array_dimension := some 3,
              array_blocktype := true },
            itemDecl "Patch1" "Patches" 1, itemDecl "Patch2" "Patches" 2] ∧
    runWalker "ASCII" fileC3C =
      some (.error (.ahds (.mandatory "Patch\x7b\x7d"))) ∧
    runWalker "ASCII" fileC3D =
      some (.error (.ahds (.itemsMissing 1 "Patches"))) := by
  refine ⟨handleGroupMarker_open, closeRun_syn,
    fun st d nm ni enc off st2 h => appendStage_frame st d nm ni enc off st2 h,
    ?_, ?_, by decide, by decide, by decide⟩
  · intro st buffer e d nm ni h
    unfold handleGroupMarker
    rw [if_pos h]
  · intro st buffer e d nm ni h1 h2
    unfold handleGroupMarker
    rw [if_neg (by omega), if_pos (Or.inl h2)]

/-- C3 amended witness: the marker-open equation at `N = 3`, the body-close
run at `N = 3` from `exState` (synthesizing `Patch2`, `Patch3`, then
popping), and the two in-group error facts, all at concrete states. -/
theorem C3_amended_witness :
    handleGroupMarker { exState with groupLevel := 0, itemCount := 0, maxItems := 0 }
        [] 0 ⟨.arrayDecls, .tmpl .patch, some 1, "group", false⟩ "Patches"
        (some 3) =
      .ok { fh := ⟨[], 0⟩, remaining := [], forceExpand := false,
            genFinal := false, cs := 0, groupLevel := 1, itemCount := 1,
            groupName := "Patches", arrayName := "Patch1",
            arrayId := some (.tmpl .patch), maxItems := 3,
            decls := [{ array_name := "Patches", array_dimension := some 4,
                        array_blocktype := true },
                      itemDecl "Patch1" "Patches" 1],
            defs := [] } ∧
    (∃ st2, closeRun exState
        [(bs "\x7d\n", 2), (bs "\x7d\n", 2), (bs "\x7d\n", 2)] = .ok st2 ∧
      st2.groupLevel = 0 ∧ st2.itemCount = 0 ∧ st2.maxItems = 0 ∧
      st2.decls = exState.decls ++
        (List.range (exState.maxItems - exState.itemCount).toNat).map
          (fun (i : Nat) =>
            itemDecl ((BName.tmpl .patch).fmt (exState.itemCount + 1 + (i : Int)))
              exState.groupName (exState.itemCount + 1 + (i : Int))) ∧
      st2.defs = exState.defs ∧ st2.fh = exState.fh ∧
      st2.remaining = exState.remaining ∧ st2.arrayId = exState.arrayId ∧
      st2.groupName = exState.groupName) ∧
    (exState.maxItems - exState.itemCount > 0 ∧
      handleGroupMarker exState [] 0
        ⟨.arrayDecls, .tmpl .patch, some 1, "group", false⟩ "Surfaces" none =
          .error (.ahds (.itemsMissing (exState.maxItems - exState.itemCount)
            exState.groupName))) ∧
    (({ exState with itemCount := 3 } : WState).maxItems -
        ({ exState with itemCount := 3 } : WState).itemCount ≤ 0 ∧
      0 < ({ exState with itemCount := 3 } : WState).groupLevel ∧
      handleGroupMarker { exState with itemCount := 3 } [] 0
        ⟨.arrayDecls, .tmpl .patch, some 1, "group", false⟩ "Surfaces" none =
          .error (.ahds .subGroups)) :=
  ⟨by
    rw [C3_amended.1 { exState with groupLevel := 0, itemCount := 0, maxItems := 0 }
      [] 0 ⟨.arrayDecls, .tmpl .patch, some 1, "group", false⟩ "Patches" 3
      (by decide) (by decide) (by decide) (by decide)]
    decide,
   C3_amended.2.1 [(bs "\x7d\n", 2), (bs "\x7d\n", 2), (bs "\x7d\n", 2)]
     exState (.tmpl .patch) (by decide) (by decide) (by decide) (by decide)
     (by decide) (by decide),
   ⟨by decide, C3_amended.2.2.2.1 exState [] 0 _ "Surfaces" none (by decide)⟩,
   ⟨by decide, by decide,
    C3_amended.2.2.2.2.1 { exState with itemCount := 3 } [] 0 _ "Surfaces" none
      (by decide) (by decide)⟩⟩

/-- C5 counterexample: a fixed-size stream keyword (`Triangles 2`, binary)
at top level before any group makes the walker read the unassigned local
`array_id`, raising an `UnboundLocalError` — not the dedicated
`AHDSStreamError`. -/
theorem C5_counterexample :
    runWalker "BINARY" fileC5 = some (.error .nameError) ∧
    ∀ m : AhdsMsg, PyErr.nameError ≠ .ahds m :=
  ⟨by decide, fun _ h => nomatch h⟩

/-- C5 (amended): the group-marker handler raises only the dedicated
`AHDSStreamError` (absent mandatory group, missing items, sub-group,
unreadable item count), but the wrong-group-context check is NOT so
protected: a stream keyword other than `Vertices` carrying a numeric count at
top level, before any group assigned `array_id`, reads the unassigned local
and raises `UnboundLocalError` instead of the dedicated error (see the
counterexample). -/
theorem C5_amended :
    (∀ (st : WState) (buffer : List Nat) (e : Nat) (d : StreamDef)
        (nm : String) (ni : Option Nat) (er : PyErr),
      handleGroupMarker st buffer e d nm ni = .error er →
      ∃ m, er = .ahds m) ∧
    (∀ (st : WState) (d : StreamDef) (nm : String) (k : Nat)
        (enc : EncodedVal) (off : Int),
      nm ≠ "Vertices" → st.groupLevel = 0 → st.arrayId = none →
      appendStage st d nm (some k) enc off = .error .nameError) := by
  constructor
  · intro st buffer e d nm ni er h
    unfold handleGroupMarker at h
    split at h
    · injection h with h2
      exact ⟨_, h2.symm⟩
    · split at h
      · injection h with h2
        exact ⟨_, h2.symm⟩
      · split at h
        · injection h with h2
          exact ⟨_, h2.symm⟩
        · dsimp only at h
          split at h
          · cases h
          · split at h
            · injection h with h2
              exact ⟨_, h2.symm⟩
            · cases h
  · intro st d nm k enc off hnm hlvl hid
    unfold appendStage
    dsimp only
    rw [if_neg (fun hc => hnm hc.1),
      if_neg (fun hc => absurd hc.2.2 (by simp)), hid]

/-- C5 amended witness: both parts at concrete inputs — a missing-items
error from the group handler is an `AHDSStreamError`, and a top-level
`Triangles` keyword with a count and no group context yields the
`UnboundLocalError`. -/
theorem C5_amended_witness :
    (∃ m, PyErr.ahds (.itemsMissing 2 "Patches") = .ahds m) ∧
    (("Triangles" : String) ≠ "Vertices" ∧
      appendStage { exState with groupLevel := 0, arrayId := none }
        ⟨.patch, .str "Triangles", some 3, "int", false⟩ "Triangles"
        (some 2) (.bytes []) 0 = .error .nameError) :=
  ⟨C5_amended.1 exState [] 0 ⟨.arrayDecls, .tmpl .patch, some 1, "group", false⟩
      "Surfaces" none (.ahds (.itemsMissing 2 "Patches")) (by decide),
   ⟨by decide,
    C5_amended.2 { exState with groupLevel := 0, arrayId := none }
      ⟨.patch, .str "Triangles", some 3, "int", false⟩ "Triangles" 2
      (.bytes []) 0 (by decide) (by decide) (by decide)⟩⟩

/-- C6: when the matched keyword resolves to a descriptor with a fixed
per-item size `isz` and the marker carries a numeric count, the binary walker
computes the payload size as `count × isz × type_size` and extracts exactly
the source bytes starting immediately after the marker end
(`q = pos − len(buffer) + e`), of exactly that length, provided the source
holds that many bytes past `q`; and whenever the append stage accepts the
result, the appended data definition stores exactly the extracted value and
offset. -/
theorem C6_fixed_size_extraction
    (sb fuel : Nat) (st : WState) (buffer : List Nat) (s e : Nat) (caps : Caps)
    (ka kb c1 c2 : Nat) (entry : List Nat × String × StreamEntry)
    (d : StreamDef) (isz tz : Nat)
    (hb : braceAdvance st buffer s = .ok st)
    (hcap0 : (caps.get? 0).bind id = some (ka, kb))
    (hfind : hyper_surface_file.find? (fun t => t.1 == sub buffer ka kb) =
      some entry)
    (hd : (match entry.2.2 with
            | .single d0 => (Except.ok d0 : Except PyErr StreamDef)
            | .multi ds =>
                match ds.get? st.groupLevel with
                | some d0 => .ok d0
                | none => .error .assertError) = .ok d)
    (hdt : ¬ (d.dtype = "group"))
    (hisz : d.itemsize = some isz)
    (hcap1 : (caps.get? 1).bind id = some (c1, c2))
    (htz : type_sizes d.dtype = some tz)
    (hbuf : buffer = sub st.fh.contents (st.fh.pos - buffer.length) st.fh.pos)
    (hblen : buffer.length ≤ st.fh.pos)
    (hpos : st.fh.pos ≤ st.fh.contents.length)
    (he : e ≤ buffer.length)
    (havail : st.fh.pos - buffer.length + e +
      parseNatDigits (sub buffer c1 c2) * isz * tz ≤ st.fh.contents.length) :
    (processMatch true sb st buffer s e caps fuel =
      some (appendStage
        { st with
            fh := (readbytes st.fh
              (parseNatDigits (sub buffer c1 c2) * isz * tz)
              (buffer.drop e)).2.2,
            remaining := (readbytes st.fh
              (parseNatDigits (sub buffer c1 c2) * isz * tz)
              (buffer.drop e)).2.1 }
        d entry.2.1 (some (parseNatDigits (sub buffer c1 c2)))
        (.bytes (sub st.fh.contents (st.fh.pos - buffer.length + e)
          (st.fh.pos - buffer.length + e +
            parseNatDigits (sub buffer c1 c2) * isz * tz)))
        ((st.fh.tell : Int) - buffer.length + e))) ∧
    (sub st.fh.contents (st.fh.pos - buffer.length + e)
        (st.fh.pos - buffer.length + e +
          parseNatDigits (sub buffer c1 c2) * isz * tz)).length =
      parseNatDigits (sub buffer c1 c2) * isz * tz ∧
    (∀ (st' : WState) (d' : StreamDef) (nm : String) (ni : Option Nat)
        (enc : EncodedVal) (off : Int) (st2 : WState),
      appendStage st' d' nm ni enc off = .ok st2 →
      st2.defs = st'.defs ∨ ∃ D, st2.defs = st'.defs ++ [D] ∧
        D.stream_data = enc ∧ D.stream_offset = off) := by
  have hbd : buffer.drop e =
      sub st.fh.contents (st.fh.pos - (buffer.length - e)) st.fh.pos := by
    conv_lhs => rw [hbuf]
    unfold sub
    rw [List.drop_drop]
    congr 1
    omega
  have hpay := readbytes_payload st.fh
    (parseNatDigits (sub buffer c1 c2) * isz * tz) (buffer.length - e)
    (buffer.drop e) (by rw [List.length_drop]) hbd (by omega) hpos (by omega)
  have hq : st.fh.pos - (buffer.length - e) = st.fh.pos - buffer.length + e := by
    omega
  rw [hq] at hpay
  refine ⟨?_, hpay.1 ▸ hpay.2, ?_⟩
  · unfold processMatch
    rw [hb]
    dsimp only
    rw [hcap0]
    dsimp only
    rw [hfind]
    dsimp only
    rw [hd]
    dsimp only
    rw [hcap1, hisz, htz]
    rw [if_neg hdt]
    rw [dif_pos (show (some isz).isSome = true from rfl)]
    dsimp only [Option.map, Option.get]
    rw [if_pos (show true = true from rfl)]
    rw [hpay.1]
  · intro st' d' nm ni enc off st2 h
    unfold appendStage at h
    dsimp only at h
    split at h
    · injection h with h2
      subst h2
      exact Or.inr ⟨_, rfl, rfl, rfl⟩
    · split at h
      · injection h with h2
        subst h2
        exact Or.inl rfl
      · split at h
        · cases h
        · split at h
          · cases h
          · injection h with h2
            subst h2
            exact Or.inr ⟨_, rfl, rfl, rfl⟩

/-- C6 witness: the extraction theorem at the `Triangles 1` marker of
`fileC6` inside a `Patches` group — payload size `1 × 3 × 4 = 12`, extracted
from the source right after the marker (offset 13), every hypothesis
discharged and the resulting state evaluated. -/
theorem C6_fixed_size_extraction_witness :
    processMatch true 32768 stC6 fileC6 0 13
        [some (1, 10), some (11, 12), none, none] 5 =
      some (.ok { stC6 with
        fh := ⟨fileC6, 26⟩, remaining := [120], cs := 0,
        defs := [{ array_reference := "Patch1", data_name := "Triangles",
                   data_dimension := some 3, data_type := "int",
                   stream_offset := 13,
                   stream_data := .bytes (List.replicate 12 66),
                   data_shape := some (some 1) }] }) := by
  have h := (C6_fixed_size_extraction 32768 5 stC6 fileC6 0 13
      [some (1, 10), some (11, 12), none, none] 1 10 11 12
      (bs "Triangles", "Triangles",
        .single ⟨.patch, .str "Triangles", some 3, "int", false⟩)
      ⟨.patch, .str "Triangles", some 3, "int", false⟩ 3 4
      (by decide) (by decide) (by decide) (by decide) (by decide) (by decide)
      (by decide) (by decide) (by decide) (by decide) (by decide) (by decide)
      (by decide)).1
  rw [h]
  decide

/-- C4 counterexample: in an ASCII HyperSurface stream with a comment line
inside the `Vertices` payload, the extracted `stream_data` has the comment
stripped, so re-reading the source at `stream_offset` for the payload length
does not reproduce `stream_data`. -/
theorem C4_counterexample :
    (walkerDef0 (runWalker "ASCII" fileC4)).map
        (fun d => (d.stream_offset, d.stream_data)) =
      some (11, .bytes (bs "1.0 2.0 3.0\n\n")) ∧
    sub fileC4 11 (11 + (bs "1.0 2.0 3.0\n\n").length) ≠ bs "1.0 2.0 3.0\n\n" := by
  decide

/-- C4 (amended): the payload round-trip holds for the BINARY walker but not
for the ASCII one (whose comment-stripping breaks it — see the
counterexample).  For every binary stream walk that ends successfully from a
state satisfying the buffer invariant, every data definition present at the
end either was present at the start or carries a byte payload that is exactly
the source bytes at its recorded `stream_offset`, with
`stream_offset + len(stream_data)` within the bytes consumed from the
source. -/
theorem C4_amended (sb fuel : Nat) (st st2 : WState)
    (hw : WInv st) (h : walk true sb fuel st = some (.ok st2)) :
    ∀ D ∈ st2.defs, D ∈ st.defs ∨
      GoodDef st2.fh.contents st2.fh.pos D :=
  (walk_inv sb fuel st st2 hw h).2.2.2

/-- C4 amended witness: the binary walk over a `Vertices 2` stream area,
with the invariant and the walk run discharged by evaluation. -/
theorem C4_amended_witness :
    (WInv stC4w ∧ walk true 32768 10 stC4w = some (.ok stC4wFinal)) ∧
    (∀ D ∈ stC4wFinal.defs, D ∈ stC4w.defs ∨
      GoodDef stC4wFinal.fh.contents stC4wFinal.fh.pos D) :=
  ⟨⟨by unfold WInv; decide, by decide⟩,
   C4_amended 32768 10 stC4w stC4wFinal (by unfold WInv; decide) (by decide)⟩

/-- C1 counterexample: on a well-formed BINARY HyperSurface file whose
payload begins with whitespace bytes, the full parse with `stream_bytes = 2`
extracts the payload at offset 50 while `stream_bytes = 4` extracts at offset
53 (the delimiter's greedy trailing whitespace absorbed buffered payload
bytes), so the final results differ between the two positive chunk sizes. -/
theorem C1_counterexample :
    (pipelineDef0 (parse_pipeline fileC1 baseSections 25 2 1000)).map
        (fun d => (d.stream_offset, d.stream_data)) =
      some (50, .bytes (sub fileC1 50 74)) ∧
    (pipelineDef0 (parse_pipeline fileC1 baseSections 25 4 1000)).map
        (fun d => (d.stream_offset, d.stream_data)) =
      some (53, .bytes (sub fileC1 53 74)) ∧
    parse_pipeline fileC1 baseSections 25 2 1000 ≠
      parse_pipeline fileC1 baseSections 25 4 1000 :=
  ⟨by decide, by decide, by decide⟩

/-- C1 (amended): the HyperSurface stream walk is NOT chunk-size independent
(see the counterexample), but format detection is: on every canonical
designation `# <keyword> <anything>`, `detect_format` detects the same format
— the keyword itself — for every positive `format_bytes`, wherever the
chunk boundary falls. -/
theorem C1_amended (kw rest : List Nat)
    (hkw : kw = bs "AmiraMesh" ∨ kw = bs "HyperSurface")
    (fb1 fb2 : Nat) (h1 : fb1 ≠ 0) (h2 : fb2 ≠ 0) :
    (detect_format ⟨bs "# " ++ kw ++ 32 :: rest, 0⟩ fb1).map (fun x => x.1) =
      .ok (decode_string kw) ∧
    (detect_format ⟨bs "# " ++ kw ++ 32 :: rest, 0⟩ fb2).map (fun x => x.1) =
      .ok (decode_string kw) := by
  constructor
  · rw [detect_format_classify _ _ h1, detect_eq_spec]
    show Except.ok (specClassify ((FH.read ⟨bs "# " ++ kw ++ 32 :: rest, 0⟩
        (if fb1 > 50 then fb1 else 50)).1)) = _
    have hr : (FH.read ⟨bs "# " ++ kw ++ 32 :: rest, 0⟩
        (if fb1 > 50 then fb1 else 50)).1 =
        (bs "# " ++ kw ++ 32 :: rest).take (if fb1 > 50 then fb1 else 50) := by
      simp [FH.read]
    rw [hr, specClassify_take kw rest hkw _ (by split <;> omega)]
  · rw [detect_format_classify _ _ h2, detect_eq_spec]
    show Except.ok (specClassify ((FH.read ⟨bs "# " ++ kw ++ 32 :: rest, 0⟩
        (if fb2 > 50 then fb2 else 50)).1)) = _
    have hr : (FH.read ⟨bs "# " ++ kw ++ 32 :: rest, 0⟩
        (if fb2 > 50 then fb2 else 50)).1 =
        (bs "# " ++ kw ++ 32 :: rest).take (if fb2 > 50 then fb2 else 50) := by
      simp [FH.read]
    rw [hr, specClassify_take kw rest hkw _ (by split <;> omega)]

/-- C1 amended witness: the amended theorem at a concrete designation with
chunk sizes 1 and 64. -/
theorem C1_amended_witness :
    ((bs "AmiraMesh" = bs "AmiraMesh" ∨ bs "AmiraMesh" = bs "HyperSurface") ∧
      (1 : Nat) ≠ 0 ∧ (64 : Nat) ≠ 0) ∧
    (detect_format ⟨bs "# " ++ bs "AmiraMesh" ++ 32 :: bs "BINARY extra", 0⟩ 1).map
        (fun x => x.1) = .ok (decode_string (bs "AmiraMesh")) ∧
    (detect_format ⟨bs "# " ++ bs "AmiraMesh" ++ 32 :: bs "BINARY extra", 0⟩ 64).map
        (fun x => x.1) = .ok (decode_string (bs "AmiraMesh")) :=
  ⟨⟨Or.inl rfl, by decide, by decide⟩,
    C1_amended (bs "AmiraMesh") (bs "BINARY extra") (Or.inl rfl) 1 64
      (by decide) (by decide)⟩

end Ahds
